import Mathlib

/-!
The client amo-client-go: transaction builders, currency codec, height cursor.

A shallow embedding of

* `lib/rpc/tx.go` — the sixteen transaction builders, each of which ends in a
  call of `SignSendTx`;
* `lib/types/types.go` — `Currency.MarshalJSON`, `Currency.UnmarshalJSON`,
  `ConvIDFromStr`;
* `cli/tx/transfer.go` — `transferFunc` and its handling of the persisted
  last height;
* `cmd/amocli/cmd/tx/grant.go` — `grantFunc` and its hex arguments;
* `lib/storage` — `getOp`, of which the sources hold the test only.

Go strings and byte slices are lists of characters.  Every byte the code
compares with something is ASCII, so a character outside ASCII stands for its
UTF-8 bytes, none of which the code matches.  A Go function with several
results returns a tuple, a Go function with effects takes and returns the
state it acts on.  `toUpper`, `SignSendTx`, `GetLastHeight`, `SetLastHeight`,
`GetRawKey`, the `rpc.Grant` that `grantFunc` calls, `getOp` and the type
`TmTxResult` are used by the sources but not among them: they are parameters,
or modelled from the spec where a definition says so.  The parts of the Go
standard library the code calls (`strconv.ParseInt`, the field selection of
`encoding/json` and its check of a `json.RawMessage`, `json.Unmarshal` into a
`big.Int`, `(*big.Int).Text`, `hex.DecodeString`) are modelled after the
library.
-/

namespace AmoClient

/-! ## Errors -/

/-- The two `Err` values of a `*strconv.NumError`: `ErrRange` and `ErrSyntax`. -/
inductive NumErr
  | ErrRange
  | ErrSyntax
  deriving DecidableEq, Repr

/-- Go `error` values that occur in the embedded code. -/
inductive Error
  /-- a `*strconv.NumError` with its `Func`, `Num` and `Err` -/
  | numError (func : String) (num : String) (err : NumErr)
  /-- the error of the quote guard of `Currency.UnmarshalJSON` ("Currency should
  be represented as double-quoted string"), carrying the offending bytes -/
  | notQuoted (b : List Char)
  /-- the error `json.Unmarshal` returned for the given text -/
  | unmarshal (text : List Char)
  /-- an error of a collaborator that is not among the sources -/
  | other (msg : String)
  /-- the error of `getOp` for a name that is no storage operation -/
  | invalidOperation (name : String)
  /-- the error `hex.InvalidByteError` for a byte that is no hex digit -/
  | hexInvalidByte (c : Char)
  /-- the error `hex.ErrLength` for an odd number of hex digits -/
  | hexErrLength
  deriving DecidableEq, Repr

/-! ## `strconv.ParseInt(s, 10, 32)` and `ConvIDFromStr` -/

/-- The bound `maxVal` of `ParseUint` for `bitSize = 32`. -/
def maxVal32 : Nat := 2 ^ 32 - 1

/-- The bound `cutoff` of `ParseUint` for base 10: `maxUint64/10 + 1`. -/
def cutoff64 : Nat := (2 ^ 64 - 1) / 10 + 1

/-- The digit loop of `strconv.ParseUint(s, 10, 32)` over the bytes of `s`,
with `n` the value accumulated so far. -/
def parseUintLoop : List Char → Nat → Except NumErr Nat
  | [], n => .ok n
  | c :: cs, n =>
    if '0' ≤ c ∧ c ≤ '9' then
      if n ≥ cutoff64 then .error .ErrRange
      else
        let n1 := n * 10 + (c.toNat - '0'.toNat)
        if n1 > maxVal32 then .error .ErrRange else parseUintLoop cs n1
    else .error .ErrSyntax

/-- Go's `strconv.ParseUint(s, 10, 32)`. -/
def ParseUint (s : List Char) : Except NumErr Nat :=
  if s = [] then .error .ErrSyntax else parseUintLoop s 0

/-- Go's `strconv.ParseInt(s, 10, 32)`: the value, or the kind of the `NumError`. -/
def ParseInt (s : List Char) : Except NumErr Int :=
  if s = [] then .error .ErrSyntax
  else
    let neg := s.head? = some '-'
    let s1 := if s.head? = some '+' ∨ s.head? = some '-' then s.tail else s
    match ParseUint s1 with
    | .error .ErrSyntax => .error .ErrSyntax
    | .error .ErrRange => .error .ErrRange
    | .ok un =>
      let cutoff : Nat := 2 ^ 31
      if ¬ neg ∧ un ≥ cutoff then .error .ErrRange
      else if neg ∧ un > cutoff then .error .ErrRange
      else .ok (if neg then -(un : Int) else (un : Int))

/-- The function `types.ConvIDFromStr`: `(uint32(tmp), nil)`, or `(0, err)` with the
`NumError` of `ParseInt`. -/
def ConvIDFromStr (IDStr : String) : Nat × Option Error :=
  match ParseInt IDStr.toList with
  | .error e => (0, some (.numError "ParseInt" IDStr e))
  | .ok tmp => ((tmp % (2 ^ 32 : Int)).toNat, none)

/-! ## Payload structs and their JSON field selection -/

/-- The Go values that occur as payload fields. -/
inductive GoValue
  | uint32 (n : Nat)
  | str (s : String)
  | bool (b : Bool)
  | strs (l : List String)
  | raw (m : String)
  deriving DecidableEq, Repr

/-- One field of a payload struct: its `json` key, whether the tag says
`omitempty`, and its value. -/
structure Field where
  key : String
  omitempty : Bool
  value : GoValue
  deriving DecidableEq, Repr

/-- A payload struct: its fields in declaration order. -/
abbrev Payload := List Field

/-- The test `isEmptyValue` of `encoding/json`: zero number, empty string, `false`,
slice of length zero. -/
def isEmptyValue : GoValue → Bool
  | .uint32 n => n == 0
  | .str s => s.length == 0
  | .bool b => !b
  | .strs l => l.length == 0
  | .raw m => m.length == 0

/-- The fields `encoding/json` writes for a struct, in order: every field
except an `omitempty` one that holds an empty value. -/
def jsonFields (p : Payload) : List Field :=
  p.filter fun f => !(f.omitempty && isEmptyValue f.value)

/-- The keys of the fields `encoding/json` selects for a payload, in order.
Whether `json.Marshal` can write them, and so whether there is a JSON object at
all, is told by `marshalKeys`; it always can for payloads without a
`json.RawMessage`. -/
def jsonKeys (p : Payload) : List String :=
  (jsonFields p).map Field.key

/-- The value of the struct field with the given `json` key. -/
def Payload.get (p : Payload) (k : String) : Option GoValue :=
  (p.find? fun f => f.key == k).map Field.value

/-! ## `SignSendTx` and the builders of `lib/rpc/tx.go` -/

/-- Modelled from the spec: `TmTxResult` is declared outside the sources; the
spec gives the result of a broadcast as `{height: string, hash: string,
code: int, log: string}`. -/
structure TmTxResult where
  Height : String
  Hash : String
  Code : Int
  Log : String
  deriving DecidableEq, Repr

/-- The zero value `TmTxResult{}`. -/
def TmTxResult.zero : TmTxResult := ⟨"", "", 0, ""⟩

/-- The two results `(TmTxResult, error)` of a builder. -/
abbrev Reply := TmTxResult × Option Error

/-- The function `SignSendTx(txType, payload, key, fee, lastHeight)` is not among the
sources: it is a parameter, acting on a state `σ` (the node, the network). -/
abbrev Sender (Key σ : Type) :=
  String → Payload → Key → String → String → σ → Reply × σ

/-- Modelled from the spec: `toUpper` is not among the sources; the spec has
address-like fields case-normalized to uppercase hex, `2f2f` to `2F2F`. -/
def toUpperSpec (s : String) : String := ⟨s.toList.map Char.toUpper⟩

section Builders

variable {Key σ : Type} (toUpper : String → String) (SignSendTx : Sender Key σ)

def Transfer (udc : Nat) (to_ amount : String) (key : Key) (fee lastHeight : String) :
    σ → Reply × σ :=
  let to_ := toUpper to_
  SignSendTx "transfer"
    [⟨"udc", true, .uint32 udc⟩, ⟨"to", false, .str to_⟩, ⟨"amount", false, .str amount⟩]
    key fee lastHeight

def Issue (udcID amount desc : String) (operators : List String) (key : Key)
    (fee lastHeight : String) : σ → Reply × σ := fun s =>
  match ConvIDFromStr udcID with
  | (_, some err) => ((TmTxResult.zero, some err), s)
  | (udcIDUint32, none) =>
    SignSendTx "issue"
      [⟨"udc", false, .uint32 udcIDUint32⟩, ⟨"desc", true, .str desc⟩,
       ⟨"operators", true, .strs operators⟩, ⟨"amount", false, .str amount⟩]
      key fee lastHeight s

def Stake (validator amount : String) (key : Key) (fee lastHeight : String) :
    σ → Reply × σ :=
  let _ := toUpper validator
  SignSendTx "stake"
    [⟨"validator", false, .str validator⟩, ⟨"amount", false, .str amount⟩]
    key fee lastHeight

def Withdraw (amount : String) (key : Key) (fee lastHeight : String) : σ → Reply × σ :=
  SignSendTx "withdraw" [⟨"amount", false, .str amount⟩] key fee lastHeight

def Delegate (to_ amount : String) (key : Key) (fee lastHeight : String) :
    σ → Reply × σ :=
  let _ := toUpper to_
  SignSendTx "delegate"
    [⟨"to", false, .str to_⟩, ⟨"amount", false, .str amount⟩]
    key fee lastHeight

def Retract (amount : String) (key : Key) (fee lastHeight : String) : σ → Reply × σ :=
  SignSendTx "retract" [⟨"amount", false, .str amount⟩] key fee lastHeight

def Propose (draftID config desc : String) (key : Key) (fee lastHeight : String) :
    σ → Reply × σ := fun s =>
  match ConvIDFromStr draftID with
  | (_, some err) => ((TmTxResult.zero, some err), s)
  | (draftIDUint32, none) =>
    SignSendTx "propose"
      [⟨"draft_id", false, .uint32 draftIDUint32⟩, ⟨"config", false, .raw config⟩,
       ⟨"desc", false, .str desc⟩]
      key fee lastHeight s

def Vote (draftID : String) (approve : Bool) (key : Key) (fee lastHeight : String) :
    σ → Reply × σ := fun s =>
  match ConvIDFromStr draftID with
  | (_, some err) => ((TmTxResult.zero, some err), s)
  | (draftIDUint32, none) =>
    SignSendTx "vote"
      [⟨"draft_id", false, .uint32 draftIDUint32⟩, ⟨"approve", false, .bool approve⟩]
      key fee lastHeight s

def Setup (storageID url regFee hostFee : String) (key : Key) (fee lastHeight : String) :
    σ → Reply × σ := fun s =>
  match ConvIDFromStr storageID with
  | (_, some err) => ((TmTxResult.zero, some err), s)
  | (storageIDUint32, none) =>
    SignSendTx "setup"
      [⟨"storage", false, .uint32 storageIDUint32⟩, ⟨"url", false, .str url⟩,
       ⟨"registration_fee", false, .str regFee⟩, ⟨"hosting_fee", false, .str hostFee⟩]
      key fee lastHeight s

def Close (storageID : String) (key : Key) (fee lastHeight : String) :
    σ → Reply × σ := fun s =>
  match ConvIDFromStr storageID with
  | (_, some err) => ((TmTxResult.zero, some err), s)
  | (storageIDUint32, none) =>
    SignSendTx "close" [⟨"storage", false, .uint32 storageIDUint32⟩] key fee lastHeight s

def Register (target custody proxy extra : String) (key : Key) (fee lastHeight : String) :
    σ → Reply × σ :=
  let target := toUpper target
  let custody := toUpper custody
  let proxy := toUpper proxy
  SignSendTx "register"
    [⟨"target", false, .str target⟩, ⟨"custody", false, .str custody⟩,
     ⟨"proxy_account", false, .str proxy⟩, ⟨"extra", false, .raw extra⟩]
    key fee lastHeight

def Discard (target : String) (key : Key) (fee lastHeight : String) : σ → Reply × σ :=
  let target := toUpper target
  SignSendTx "discard" [⟨"target", false, .str target⟩] key fee lastHeight

def Request (target payment extra : String) (key : Key) (fee lastHeight : String) :
    σ → Reply × σ :=
  let target := toUpper target
  SignSendTx "request"
    [⟨"target", false, .str target⟩, ⟨"payment", false, .str payment⟩,
     ⟨"extra", false, .raw extra⟩]
    key fee lastHeight

def Cancel (target : String) (key : Key) (fee lastHeight : String) : σ → Reply × σ :=
  let target := toUpper target
  SignSendTx "cancel" [⟨"target", false, .str target⟩] key fee lastHeight

def Grant (target grantee custody extra : String) (key : Key) (fee lastHeight : String) :
    σ → Reply × σ :=
  let target := toUpper target
  let grantee := toUpper grantee
  let custody := toUpper custody
  SignSendTx "grant"
    [⟨"target", false, .str target⟩, ⟨"grantee", false, .str grantee⟩,
     ⟨"custody", false, .str custody⟩, ⟨"extra", false, .raw extra⟩]
    key fee lastHeight

def Revoke (target grantee : String) (key : Key) (fee lastHeight : String) :
    σ → Reply × σ :=
  let target := toUpper target
  let grantee := toUpper grantee
  SignSendTx "revoke"
    [⟨"target", false, .str target⟩, ⟨"grantee", false, .str grantee⟩]
    key fee lastHeight

end Builders

/-! ## The currency codec of `lib/types/types.go` -/

/-- The type `Currency`, a struct embedding a `big.Int`: an integer of any size. -/
structure Currency where
  val : Int
  deriving DecidableEq, Repr

/-- The character of a decimal digit. -/
def digitChar (d : Nat) : Char := Char.ofNat (d + '0'.toNat)

/-- Decimal digits of `n`, most significant first, in front of `acc`; `fuel`
bounds the number of digits. -/
def natTextAux : Nat → Nat → List Char → List Char
  | 0, _, acc => acc
  | fuel + 1, n, acc =>
    if n < 10 then digitChar n :: acc
    else natTextAux fuel (n / 10) (digitChar (n % 10) :: acc)

/-- Base-10 text of a natural number: `0` is `"0"`, no leading zeros. -/
def natText (n : Nat) : List Char := natTextAux (n + 1) n []

/-- Go's `(*big.Int).Text(10)`: a minus sign for a negative value, then the
decimal digits of the magnitude. -/
def intText (z : Int) : List Char :=
  if z < 0 then '-' :: natText z.natAbs else natText z.natAbs

/-- The method `Currency.MarshalJSON`: a double quote, `c.Text(10)`, a double
quote, and a nil error. -/
def Currency.MarshalJSON (c : Currency) : List Char × Option Error :=
  ('"' :: (intText c.val ++ ['"']), none)

/-- The test `isSpace` of the `encoding/json` scanner. -/
def isSpace (c : Char) : Bool := c = ' ' ∨ c = '\t' ∨ c = '\r' ∨ c = '\n'

/-- Whether `c` is one of `0` … `9`. -/
def isDigit (c : Char) : Bool := '0' ≤ c ∧ c ≤ '9'

/-- Drops leading JSON white space. -/
def skipSpace : List Char → List Char
  | [] => []
  | c :: cs => if isSpace c then skipSpace cs else c :: cs

/-- Integer part of a JSON number (scanner states `state0`, `state1`): a single
`0`, or a nonzero digit and the digits after it.  Returns the part and the
rest of the input. -/
def scanInt : List Char → Option (List Char × List Char)
  | [] => none
  | c :: cs =>
    if c = '0' then some (['0'], cs)
    else if '1' ≤ c ∧ c ≤ '9' then some (c :: cs.takeWhile isDigit, cs.dropWhile isDigit)
    else none

/-- Optional fraction of a JSON number (`stateDot`, `stateDot0`): a dot and at
least one digit. -/
def scanFrac : List Char → Option (List Char × List Char)
  | [] => some ([], [])
  | c :: cs =>
    if c = '.' then
      if cs.takeWhile isDigit = [] then none
      else some ('.' :: cs.takeWhile isDigit, cs.dropWhile isDigit)
    else some ([], c :: cs)

/-- Optional exponent of a JSON number (`stateE`, `stateESign`, `stateE0`):
`e` or `E`, an optional sign, at least one digit. -/
def scanExp : List Char → Option (List Char × List Char)
  | [] => some ([], [])
  | c :: cs =>
    if c = 'e' ∨ c = 'E' then
      let sign := if cs.head? = some '+' ∨ cs.head? = some '-' then cs.take 1 else []
      let cs1 := if cs.head? = some '+' ∨ cs.head? = some '-' then cs.tail else cs
      if cs1.takeWhile isDigit = [] then none
      else some (c :: (sign ++ cs1.takeWhile isDigit), cs1.dropWhile isDigit)
    else some ([], c :: cs)

/-- The `encoding/json` scanner on a number: the bytes of the number literal
at the head of the input and the input after it, or `none` where the scanner
reports a syntax error. -/
def scanNumber (cs : List Char) : Option (List Char × List Char) :=
  let sign := if cs.head? = some '-' then ['-'] else []
  let cs0 := if cs.head? = some '-' then cs.tail else cs
  match scanInt cs0 with
  | none => none
  | some (i, r1) =>
    match scanFrac r1 with
    | none => none
    | some (f, r2) =>
      match scanExp r2 with
      | none => none
      | some (e, r3) => some (sign ++ i ++ f ++ e, r3)

/-- Value of a byte as a digit in `nat.scan` of `math/big`, for a base of at
most 36; `MaxBase + 1 = 63` for a byte that is no digit. -/
def digitVal (ch : Char) : Nat :=
  if '0' ≤ ch ∧ ch ≤ '9' then ch.toNat - '0'.toNat
  else if 'a' ≤ ch ∧ ch ≤ 'z' then ch.toNat - 'a'.toNat + 10
  else if 'A' ≤ ch ∧ ch ≤ 'Z' then ch.toNat - 'A'.toNat + 10
  else 63

/-- State of `nat.scan` when its loop ends: the value read, the number of
digits, the previous byte class (`'0'` digit, `'_'` separator, `'.'` start),
whether a separator was misplaced, and the unread input. -/
structure NatScan where
  val : Nat
  count : Nat
  prev : Char
  invalSep : Bool
  rest : List Char
  deriving DecidableEq, Repr

/-- The conversion loop of `nat.scan` in base `b`, called with `base == 0` and
`fracOk == false`: `_` is a separator, a byte that is no digit of base `b`
ends the number and stays unread. -/
def natScanLoop (b : Nat) : List Char → Nat → Nat → Char → Bool → NatScan
  | [], v, n, prev, inval => ⟨v, n, prev, inval, []⟩
  | ch :: cs, v, n, prev, inval =>
    if ch = '_' then natScanLoop b cs v n '_' (inval || prev != '0')
    else if digitVal ch ≥ b then ⟨v, n, prev, inval, ch :: cs⟩
    else natScanLoop b cs (v * b + digitVal ch) (n + 1) '0' inval

/-- The function `nat.scan(r, 0, false)` of `math/big`: the base is 10 unless the text
starts with `0` and another byte (`0b`, `0o`, `0x`, or `0` for octal).  Returns
the value and the unread input, or `none` for an error. -/
def natScan (cs : List Char) : Option (Nat × List Char) :=
  match cs with
  | [] => none
  | c :: cs1 =>
    if c = '0' then
      match cs1 with
      | [] => some (0, [])
      | ch :: cs2 =>
        let b := if ch = 'b' ∨ ch = 'B' then 2 else if ch = 'x' ∨ ch = 'X' then 16 else 8
        let octal0 : Bool := ¬ (ch = 'b' ∨ ch = 'B' ∨ ch = 'o' ∨ ch = 'O' ∨ ch = 'x' ∨ ch = 'X')
        let r := natScanLoop b (if octal0 then ch :: cs2 else cs2) 0 0 '0' false
        if r.invalSep ∨ r.prev = '_' then none
        else if r.count = 0 then (if octal0 then some (0, r.rest) else none)
        else some (r.val, r.rest)
    else
      let r := natScanLoop 10 (c :: cs1) 0 0 '.' false
      if r.invalSep ∨ r.prev = '_' then none
      else if r.count = 0 then none
      else some (r.val, r.rest)

/-- Go's `(*big.Int).UnmarshalText`, that is `setFromScanner(text, 0)`: an optional
sign, a number in the syntax of `nat.scan`, and nothing after it. -/
def bigIntUnmarshalText (text : List Char) : Option Int :=
  match text with
  | [] => none
  | c :: cs =>
    match natScan (if c = '-' ∨ c = '+' then cs else c :: cs) with
    | some (v, []) => some (if c = '-' then -(v : Int) else (v : Int))
    | _ => none

/-- What `json.Unmarshal(text, &z)` leaves behind for a `big.Int` `z`: the
error, and the value of `z` afterwards where the model determines it. -/
structure Decoded where
  err : Option Error
  recv : Option Int
  deriving DecidableEq, Repr

/-- Go's `json.Unmarshal(text, &z)` for `z` a `big.Int`.  The text has to be one
JSON value between optional white space.  The literal `null` is ignored by
`(*big.Int).UnmarshalJSON` and leaves `z` as it is; a number is handed to
`UnmarshalText`; any other text fails, in the scanner when it is no JSON, in
`UnmarshalText` when it is a string, array, object, `true` or `false`.  After
a failure `math/big` may have written to `z`, so `recv` is `none` there. -/
def jsonUnmarshalBigInt (text : List Char) (z : Int) : Decoded :=
  match skipSpace text with
  | [] => ⟨some (.unmarshal text), none⟩
  | c :: cs =>
    if c = 'n' then
      if cs.take 3 = ['u', 'l', 'l'] ∧ skipSpace (cs.drop 3) = [] then ⟨none, some z⟩
      else ⟨some (.unmarshal text), none⟩
    else if c = '-' ∨ isDigit c then
      match scanNumber (c :: cs) with
      | none => ⟨some (.unmarshal text), none⟩
      | some (item, rest) =>
        if skipSpace rest = [] then
          match bigIntUnmarshalText item with
          | some v => ⟨none, some v⟩
          | none => ⟨some (.unmarshal text), none⟩
        else ⟨some (.unmarshal text), none⟩
    else ⟨some (.unmarshal text), none⟩

/-- The receiver of `Currency.UnmarshalJSON` after the call and the error it
returned; `recv = none` where a failed `json.Unmarshal` leaves the receiver
undetermined. -/
structure Unmarshalled where
  err : Option Error
  recv : Option Currency
  deriving DecidableEq, Repr

/-- The method `(*Currency).UnmarshalJSON(b)`: without a double quote at both ends the
error is returned at once and the receiver is not touched; otherwise
`b[1:len(b)-1]` goes to `json.Unmarshal(…, &c.Int)`. -/
def Currency.UnmarshalJSON (c : Currency) (b : List Char) : Unmarshalled :=
  if b.length < 2 ∨ b.head? ≠ some '"' ∨ b.getLast? ≠ some '"' then
    ⟨some (.notQuoted b), some c⟩
  else
    let d := jsonUnmarshalBigInt ((b.drop 1).take (b.length - 2)) c.val
    ⟨d.err, d.recv.map Currency.mk⟩

/-- Whether `c` is one of `0` … `9`, `a` … `f`, `A` … `F`. -/
def isHexDigit (c : Char) : Bool :=
  ('0' ≤ c ∧ c ≤ '9') ∨ ('a' ≤ c ∧ c ≤ 'f') ∨ ('A' ≤ c ∧ c ≤ 'F')

/-! ## Validity of a JSON text and `json.Marshal` of a payload -/

/-- The limit `maxNestingDepth` of the `encoding/json` scanner on open arrays
and objects. -/
def maxNestingDepth : Nat := 10000

/-- The scanner inside a string, after the opening quote (`stateInString`,
`stateInStringEsc`, `stateInStringEscU`): up to the closing quote, with the
escapes `\b \f \n \r \t \\ \/ \"` and `\u` followed by four hex digits, and no
byte below `0x20`.  Returns the input after the closing quote.  Every call
reads a byte, so a `fuel` above the length of the input is never used up. -/
def scanString : Nat → List Char → Option (List Char)
  | 0, _ => none
  | _ + 1, [] => none
  | fuel + 1, c :: cs =>
    if c = '"' then some cs
    else if c = '\\' then
      match cs with
      | [] => none
      | e :: cs1 =>
        if e = 'b' ∨ e = 'f' ∨ e = 'n' ∨ e = 'r' ∨ e = 't' ∨ e = '\\' ∨ e = '/' ∨ e = '"' then
          scanString fuel cs1
        else if e = 'u' then
          if 4 ≤ cs1.length ∧ (cs1.take 4).all isHexDigit = true then
            scanString fuel (cs1.drop 4)
          else none
        else none
    else if c.toNat < 0x20 then none
    else scanString fuel cs

/-- The rest of a literal `true`, `false` or `null` after its first letter. -/
def scanLiteral (lit cs : List Char) : Option (List Char) :=
  if cs.take lit.length = lit then some (cs.drop lit.length) else none

mutual

/-- The scanner on one JSON value that starts at the head of the input
(`stateBeginValue` after white space), with `depth` arrays and objects open:
a string, number, literal, array or object.  Returns the input after the
value, or `none` for a syntax error.  Every call spends one unit of `fuel`. -/
def scanValue : Nat → Nat → List Char → Option (List Char)
  | 0, _, _ => none
  | _ + 1, _, [] => none
  | fuel + 1, depth, c :: cs =>
    if c = '"' then scanString (cs.length + 1) cs
    else if c = '-' ∨ isDigit c = true then (scanNumber (c :: cs)).map Prod.snd
    else if c = 't' then scanLiteral ['r', 'u', 'e'] cs
    else if c = 'f' then scanLiteral ['a', 'l', 's', 'e'] cs
    else if c = 'n' then scanLiteral ['u', 'l', 'l'] cs
    else if c = '[' then
      if depth ≥ maxNestingDepth then none
      else
        match skipSpace cs with
        | [] => none
        | d :: r => if d = ']' then some r else scanElems fuel (depth + 1) (d :: r)
    else if c = '{' then
      if depth ≥ maxNestingDepth then none
      else
        match skipSpace cs with
        | [] => none
        | d :: r => if d = '}' then some r else scanMembers fuel (depth + 1) (d :: r)
    else none

/-- The elements of an array from the head of an element on: a value, white
space, then a comma and the next element, or the closing bracket. -/
def scanElems : Nat → Nat → List Char → Option (List Char)
  | 0, _, _ => none
  | fuel + 1, depth, cs =>
    match scanValue fuel depth cs with
    | none => none
    | some r =>
      match skipSpace r with
      | [] => none
      | d :: r1 =>
        if d = ',' then scanElems fuel depth (skipSpace r1)
        else if d = ']' then some r1
        else none

/-- The members of an object from the head of a key on: a string, white
space, a colon, a value, white space, then a comma and the next key, or the
closing brace. -/
def scanMembers : Nat → Nat → List Char → Option (List Char)
  | 0, _, _ => none
  | _ + 1, _, [] => none
  | fuel + 1, depth, q :: cs =>
    if q = '"' then
      match scanString (cs.length + 1) cs with
      | none => none
      | some r =>
        match skipSpace r with
        | [] => none
        | col :: r1 =>
          if col = ':' then
            match scanValue fuel depth (skipSpace r1) with
            | none => none
            | some r2 =>
              match skipSpace r2 with
              | [] => none
              | d :: r3 =>
                if d = ',' then scanMembers fuel depth (skipSpace r3)
                else if d = '}' then some r3
                else none
          else none
    else none

end

/-- Whether the `encoding/json` scanner accepts the text: one JSON value
between optional white space.  The fuel `2 * length + 2` is never used up: a
call of `scanValue` reads a byte before it calls `scanElems` or `scanMembers`,
and these read a value and a comma before they call themselves. -/
def validJSON (text : List Char) : Bool :=
  match scanValue (2 * text.length + 2) 0 (skipSpace text) with
  | none => false
  | some r => skipSpace r = []

/-- Whether `json.Marshal` can write a field value: a `json.RawMessage` has to
be valid JSON (the encoder runs the scanner over what `MarshalJSON` returns,
which for a non-nil message is the message itself); numbers, strings,
booleans and string slices can always be written. -/
def renders : GoValue → Bool
  | .raw m => validJSON m.toList
  | _ => true

/-- The keys of the JSON object `json.Marshal` writes for a payload struct, in
order, or `none` when it returns an error because a field it selects cannot be
written. -/
def marshalKeys (p : Payload) : Option (List String) :=
  if (jsonFields p).all (fun f => renders f.value) = true then some (jsonKeys p) else none

/-- A run that does nothing but call `SignSendTx` once, with the given
arguments, and return what it returns: whatever `SignSendTx` is and whatever
state it starts in. -/
def Sends {Key : Type} (run : (σ : Type) → Sender Key σ → σ → Reply × σ)
    (txType : String) (p : Payload) (key : Key) (fee lastHeight : String) : Prop :=
  ∀ (σ : Type) (send : Sender Key σ) (s : σ), run σ send s = send txType p key fee lastHeight s

/-- A run that returns the given results without calling `SignSendTx`: the
state is the one it started in, whatever `SignSendTx` is. -/
def ReturnsUnsent {Key : Type} (run : (σ : Type) → Sender Key σ → σ → Reply × σ)
    (r : Reply) : Prop :=
  ∀ (σ : Type) (send : Sender Key σ) (s : σ), run σ send s = (r, s)

/-! ## The transaction catalogue of the spec -/

/-- The catalogue as the spec words it: for each transaction type the payload
fields in order, `true` marking a field the spec calls optional. -/
def catalogue : List (String × List (String × Bool)) :=
  [("transfer", [("udc", true), ("to", false), ("amount", false)]),
   ("issue", [("udc", false), ("desc", true), ("operators", true), ("amount", false)]),
   ("stake", [("validator", false), ("amount", false)]),
   ("withdraw", [("amount", false)]),
   ("delegate", [("to", false), ("amount", false)]),
   ("retract", [("amount", false)]),
   ("propose", [("draft_id", false), ("config", false), ("desc", false)]),
   ("vote", [("draft_id", false), ("approve", false)]),
   ("setup", [("storage", false), ("url", false), ("registration_fee", false),
     ("hosting_fee", false)]),
   ("close", [("storage", false)]),
   ("register", [("target", false), ("custody", false), ("proxy_account", false),
     ("extra", false)]),
   ("discard", [("target", false)]),
   ("request", [("target", false), ("payment", false), ("extra", false)]),
   ("cancel", [("target", false)]),
   ("grant", [("target", false), ("grantee", false), ("custody", false), ("extra", false)]),
   ("revoke", [("target", false), ("grantee", false)])]

/-- A payload struct agrees with the catalogue entry of type `t`: its keys are
the entry's fields in the entry's order, `json.Marshal` writes an object for
it, the keys of that object are among the entry's fields in that order, and
every field the entry does not mark optional is among them. -/
def Conforms (t : String) (p : Payload) : Prop :=
  ∃ fs ks, catalogue.lookup t = some fs ∧
    p.map Field.key = fs.map Prod.fst ∧
    marshalKeys p = some ks ∧
    ks.Sublist (fs.map Prod.fst) ∧
    ∀ k, (k, false) ∈ fs → k ∈ ks

/-- A run that hands `SignSendTx` the type `t`, a payload agreeing with the
catalogue entry of `t`, and the given key, fee and last height. -/
def Catalogued {Key : Type} (run : (σ : Type) → Sender Key σ → σ → Reply × σ)
    (t : String) (key : Key) (fee lastHeight : String) : Prop :=
  ∃ p, Sends run t p key fee lastHeight ∧ Conforms t p

/-! ## `transferFunc` of `cli/tx/transfer.go` and the persisted last height -/

/-- What `transferFunc` acts on: the last height persisted in the config file,
the heights `SetLastHeight` was called with (oldest first), the lines printed,
and the state `SignSendTx` acts on. -/
structure World (ν : Type) where
  lastHeight : String
  heightWrites : List String
  stdout : List String
  node : ν

/-- Modelled from the spec: `GetLastHeight` is not among the sources; the spec
has the cursor read through an accessor before signing.  `readErr` is the
error of a config file that cannot be read. -/
def GetLastHeight {ν : Type} (readErr : Option Error) (w : World ν) : String × Option Error :=
  match readErr with
  | some err => ("", some err)
  | none => (w.lastHeight, none)

/-- Modelled from the spec: `SetLastHeight` is not among the sources; the spec
has the cursor written through an accessor, after which it holds the height
written. -/
def SetLastHeight {ν : Type} (height : String) (w : World ν) : World ν :=
  { w with lastHeight := height, heightWrites := w.heightWrites ++ [height] }

/-- The collaborators of `transferFunc` that are not among the sources: the
values and errors of the two flags, of `key.GetUserKey` and of reading the
config file, the package variables `rpc.DryRun` and `Fee`, `toUpper` and
`SignSendTx` of package `rpc` (which acts on the node only; the spec has it
never touch the cursor), and `json.Marshal` of a `TmTxResult`. -/
structure Cli (Key ν : Type) where
  jsonFlag : Bool × Option Error
  udcFlag : Nat × Option Error
  GetUserKey : Key × Option Error
  readErr : Option Error
  DryRun : Bool
  Fee : String
  toUpper : String → String
  SignSendTx : Sender Key ν
  jsonMarshal : TmTxResult → String × Option Error

/-- The call `rpc.Transfer(udc, args[0], args[1], key, Fee, lastHeight)` as
`transferFunc` makes it once flags, key and cursor have been read. -/
def broadcast {Key ν : Type} (cli : Cli Key ν) (arg0 arg1 : String) (w : World ν) :
    Reply × ν :=
  Transfer cli.toUpper cli.SignSendTx cli.udcFlag.1 arg0 arg1 cli.GetUserKey.1 cli.Fee
    w.lastHeight w.node

/-- The command `transferFunc(cmd, args)` with `arg0 = args[0]`, `arg1 = args[1]`
(`cobra.MinimumNArgs(2)` guards the call): the returned error and the world
afterwards. -/
def transferFunc {Key ν : Type} (cli : Cli Key ν) (arg0 arg1 : String) (w : World ν) :
    Option Error × World ν :=
  match cli.jsonFlag with
  | (_, some err) => (some err, w)
  | (asJson, none) =>
    match cli.GetUserKey with
    | (_, some err) => (some err, w)
    | (key, none) =>
      match GetLastHeight cli.readErr w with
      | (_, some err) => (some err, w)
      | (lastHeight, none) =>
        match cli.udcFlag with
        | (_, some err) => (some err, w)
        | (udc, none) =>
          match Transfer cli.toUpper cli.SignSendTx udc arg0 arg1 key cli.Fee lastHeight
              w.node with
          | ((_, some err), node) => (some err, { w with node := node })
          | ((result, none), node) =>
            let w1 := { w with node := node }
            if cli.DryRun then (none, w1)
            else
              let w2 := if result.Height ≠ "0" then SetLastHeight result.Height w1 else w1
              if asJson then
                match cli.jsonMarshal result with
                | (_, some err) => (some err, w2)
                | (resultJSON, none) => (none, { w2 with stdout := w2.stdout ++ [resultJSON] })
              else (none, w2)

/-- Decimal value of a digit string, most significant digit first. -/
def decVal (ds : List Char) : Nat :=
  ds.foldl (fun v c => v * 10 + (c.toNat - '0'.toNat)) 0

/-- A height, which the code holds as a decimal-digit string, as a number. -/
def heightVal (h : String) : Nat := decVal h.toList

/-- A decimal numeral without a leading zero: digits, not empty, starting with
`0` only when it is `0` itself. -/
def Canonical (s : List Char) : Prop :=
  s ≠ [] ∧ (∀ ch ∈ s, isDigit ch = true) ∧ (s.head? = some '0' → s = ['0'])

/-- What may follow the integer part inside a JSON number: nothing, or a
fraction or exponent, which start with `.`, `e` or `E`. -/
def NumberTail (t : List Char) : Prop :=
  t = [] ∨ ∃ x r, t = x :: r ∧ (x = '.' ∨ x = 'e' ∨ x = 'E')

/-- A command line for the examples: flags, key and config file are read
without error, no dry run, and `SignSendTx` answers every call with the given
height. -/
def demoCli (height : String) : Cli Unit Unit where
  jsonFlag := (false, none)
  udcFlag := (0, none)
  GetUserKey := ((), none)
  readErr := none
  DryRun := false
  Fee := "0"
  toUpper := toUpperSpec
  SignSendTx := fun _ _ _ _ _ s => ((⟨height, "", 0, ""⟩, none), s)
  jsonMarshal := fun _ => ("", none)

/-! ## The storage operation descriptor -/

/-- Modelled from the spec: `getOp` is not among the sources, only the test
that calls it is.  The spec has it produce the descriptor for `download`,
`upload` and `remove` (`name` first, then `id`, or `hash` for an upload, no
white space) and fail with an invalid-operation error for any other name; the
test has the failure come with an empty descriptor. -/
def getOp (name id : String) : String × Option Error :=
  if name = "download" then
    ("\x7b\"name\":\"download\",\"id\":\"" ++ id ++ "\"\x7d", none)
  else if name = "upload" then
    ("\x7b\"name\":\"upload\",\"hash\":\"" ++ id ++ "\"\x7d", none)
  else if name = "remove" then
    ("\x7b\"name\":\"remove\",\"id\":\"" ++ id ++ "\"\x7d", none)
  else ("", some (.invalidOperation name))

/-! ## Integer literals -/

/-- The integer that an optionally signed base-10 literal denotes: an optional
`+` or `-`, then one or more decimal digits; `none` for a string that is no
such literal. -/
def literalValue (s : List Char) : Option Int :=
  let ds := if s.head? = some '+' ∨ s.head? = some '-' then s.tail else s
  if ds ≠ [] ∧ ds.all isDigit = true then
    some (if s.head? = some '-' then -(decVal ds : Int) else (decVal ds : Int))
  else none

/-- Whether an integer lies in the signed 32-bit range. -/
abbrev inInt32 (v : Int) : Prop := -(2 : Int) ^ 31 ≤ v ∧ v ≤ (2 : Int) ^ 31 - 1

/-! ## `grantFunc` of `cmd/amocli/cmd/tx/grant.go` and `hex.DecodeString` -/

/-- The function `fromHexChar` of `encoding/hex`: the value of a hex digit. -/
def fromHexChar (c : Char) : Option Nat :=
  if '0' ≤ c ∧ c ≤ '9' then some (c.toNat - '0'.toNat)
  else if 'a' ≤ c ∧ c ≤ 'f' then some (c.toNat - 'a'.toNat + 10)
  else if 'A' ≤ c ∧ c ≤ 'F' then some (c.toNat - 'A'.toNat + 10)
  else none

/-- The loop of `hex.Decode` and the check after it: pairs of hex digits
become bytes; the first byte that is no hex digit gives `InvalidByteError`,
also when it is the odd one at the end, and an odd number of hex digits gives
`ErrLength`.  Returns the bytes decoded so far and the error. -/
def decodeLoop : List Char → List Nat → List Nat × Option Error
  | [], acc => (acc, none)
  | [a], acc =>
    match fromHexChar a with
    | none => (acc, some (.hexInvalidByte a))
    | some _ => (acc, some .hexErrLength)
  | a :: b :: rest, acc =>
    match fromHexChar a with
    | none => (acc, some (.hexInvalidByte a))
    | some x =>
      match fromHexChar b with
      | none => (acc, some (.hexInvalidByte b))
      | some y => decodeLoop rest (acc ++ [x * 16 + y])

/-- Go's `hex.DecodeString(s)`. -/
def DecodeString (s : String) : List Nat × Option Error :=
  decodeLoop s.toList []

/-- A valid hexadecimal string: an even number of characters, each of them a
hex digit. -/
def validHex (s : String) : Bool :=
  s.length % 2 == 0 && s.toList.all isHexDigit

/-- The first of three arguments that is no valid hexadecimal string (the
third when the first two are valid). -/
def firstBad (arg0 arg1 arg2 : String) : String :=
  if validHex arg0 = false then arg0 else if validHex arg1 = false then arg1 else arg2

/-- The collaborators of `grantFunc` that are not among the sources, acting on
a state `σ`: `GetRawKey(util.DefaultKeyFilePath())`, the four-argument
`rpc.Grant` of the tree `grant.go` belongs to, `json.Marshal` of its result,
and `fmt.Println`. -/
structure GrantEnv (Key Res σ : Type) where
  GetRawKey : σ → (Key × Option Error) × σ
  Grant : List Nat → List Nat → List Nat → Key → σ → (Res × Option Error) × σ
  jsonMarshal : Res → String × Option Error
  println : String → σ → σ

/-- The command `grantFunc(cmd, args)` with `arg0 = args[0]`, `arg1 = args[1]`,
`arg2 = args[2]` (`cobra.MinimumNArgs(3)` guards the call): the returned error
and the state afterwards. -/
def grantFunc {Key Res σ : Type} (env : GrantEnv Key Res σ) (arg0 arg1 arg2 : String)
    (s : σ) : Option Error × σ :=
  match DecodeString arg0 with
  | (_, some err) => (some err, s)
  | (parcel, none) =>
    match DecodeString arg1 with
    | (_, some err) => (some err, s)
    | (grantee, none) =>
      match DecodeString arg2 with
      | (_, some err) => (some err, s)
      | (custody, none) =>
        match env.GetRawKey s with
        | ((_, some err), s1) => (some err, s1)
        | ((key, none), s1) =>
          match env.Grant parcel grantee custody key s1 with
          | ((_, some err), s2) => (some err, s2)
          | ((result, none), s2) =>
            match env.jsonMarshal result with
            | (_, some err) => (some err, s2)
            | (resultJSON, none) => (none, env.println resultJSON s2)

/-- A `GrantEnv` for the examples whose state is the list of the calls made:
loading the key records `GetRawKey`, the broadcast records `Grant`, printing
records the line. -/
def tracingEnv : GrantEnv Unit String (List String) where
  GetRawKey := fun s => (((), none), s ++ ["GetRawKey"])
  Grant := fun _ _ _ _ s => (("ok", none), s ++ ["Grant"])
  jsonMarshal := fun r => (r, none)
  println := fun line s => s ++ [line]

/-! ## Address-like fields -/

/-- C1: for every `toUpper` and every input, `Transfer`, `Register`, `Discard`,
`Request`, `Cancel`, `Grant` and `Revoke` hand `SignSendTx` a payload whose
address-like fields (`to`; `target`, `proxy_account`; `target`; `target`;
`target`; `target`, `grantee`; `target`, `grantee`) hold `toUpper` of the
caller's argument; with the upper-casing of the spec, `2f2f` becomes `2F2F`. -/
theorem address_fields_upper {Key : Type} (toUpper : String → String) (key : Key)
    (fee lastHeight : String) :
    (∀ udc to_ amount, ∃ p,
      Sends (fun _ send => Transfer toUpper send udc to_ amount key fee lastHeight)
        "transfer" p key fee lastHeight ∧
      p.get "to" = some (.str (toUpper to_))) ∧
    (∀ target custody proxy extra, ∃ p,
      Sends (fun _ send => Register toUpper send target custody proxy extra key fee lastHeight)
        "register" p key fee lastHeight ∧
      p.get "target" = some (.str (toUpper target)) ∧
      p.get "proxy_account" = some (.str (toUpper proxy))) ∧
    (∀ target, ∃ p,
      Sends (fun _ send => Discard toUpper send target key fee lastHeight)
        "discard" p key fee lastHeight ∧
      p.get "target" = some (.str (toUpper target))) ∧
    (∀ target payment extra, ∃ p,
      Sends (fun _ send => Request toUpper send target payment extra key fee lastHeight)
        "request" p key fee lastHeight ∧
      p.get "target" = some (.str (toUpper target))) ∧
    (∀ target, ∃ p,
      Sends (fun _ send => Cancel toUpper send target key fee lastHeight)
        "cancel" p key fee lastHeight ∧
      p.get "target" = some (.str (toUpper target))) ∧
    (∀ target grantee custody extra, ∃ p,
      Sends (fun _ send => Grant toUpper send target grantee custody extra key fee lastHeight)
        "grant" p key fee lastHeight ∧
      p.get "target" = some (.str (toUpper target)) ∧
      p.get "grantee" = some (.str (toUpper grantee))) ∧
    (∀ target grantee, ∃ p,
      Sends (fun _ send => Revoke toUpper send target grantee key fee lastHeight)
        "revoke" p key fee lastHeight ∧
      p.get "target" = some (.str (toUpper target)) ∧
      p.get "grantee" = some (.str (toUpper grantee))) ∧
    toUpperSpec "2f2f" = "2F2F" := by
  refine ⟨?_, ?_, ?_, ?_, ?_, ?_, ?_, by decide⟩
  · intro udc to_ amount
    exact ⟨_, fun _ _ _ => rfl, rfl⟩
  · intro target custody proxy extra
    exact ⟨_, fun _ _ _ => rfl, rfl, rfl⟩
  · intro target
    exact ⟨_, fun _ _ _ => rfl, rfl⟩
  · intro target payment extra
    exact ⟨_, fun _ _ _ => rfl, rfl⟩
  · intro target
    exact ⟨_, fun _ _ _ => rfl, rfl⟩
  · intro target grantee custody extra
    exact ⟨_, fun _ _ _ => rfl, rfl, rfl⟩
  · intro target grantee
    exact ⟨_, fun _ _ _ => rfl, rfl, rfl⟩

/-- C2: `Stake` and `Delegate` call `toUpper` and drop its result: whatever
`toUpper` is, the `validator` field and the `to` field handed to `SignSendTx`
hold the caller's argument as it came, so `2f2f` is sent as `2f2f`, which is
not its upper-casing `2F2F`. -/
theorem stake_delegate_keep_case {Key : Type} (toUpper : String → String) (key : Key)
    (fee lastHeight : String) :
    (∀ validator amount, ∃ p,
      Sends (fun _ send => Stake toUpper send validator amount key fee lastHeight)
        "stake" p key fee lastHeight ∧
      p.get "validator" = some (.str validator)) ∧
    (∀ to_ amount, ∃ p,
      Sends (fun _ send => Delegate toUpper send to_ amount key fee lastHeight)
        "delegate" p key fee lastHeight ∧
      p.get "to" = some (.str to_)) ∧
    toUpperSpec "2f2f" = "2F2F" ∧ "2f2f" ≠ toUpperSpec "2f2f" := by
  refine ⟨?_, ?_, by decide, by decide⟩
  · intro validator amount
    exact ⟨_, fun _ _ _ => rfl, rfl⟩
  · intro to_ amount
    exact ⟨_, fun _ _ _ => rfl, rfl⟩

/-! ## Field selection of the payloads -/

theorem jsonKeys_nil : jsonKeys [] = [] := rfl

theorem jsonKeys_cons (f : Field) (p : Payload) :
    jsonKeys (f :: p) =
      if f.omitempty = true ∧ isEmptyValue f.value = true then jsonKeys p
      else f.key :: jsonKeys p := by
  simp only [jsonKeys, jsonFields, List.filter_cons]
  cases f.omitempty <;> cases isEmptyValue f.value <;> simp

theorem length_eq_zero_iff (d : String) : d.length = 0 ↔ d = "" := by
  constructor
  · intro h
    cases d with
    | mk l =>
      have hl : l = [] := List.length_eq_zero.mp h
      subst hl
      rfl
  · rintro rfl; rfl

theorem marshalKeys_of_renders (p : Payload) (h : ∀ f ∈ p, renders f.value = true) :
    marshalKeys p = some (jsonKeys p) := by
  unfold marshalKeys
  rw [if_pos]
  rw [List.all_eq_true]
  intro f hf
  exact h f (List.mem_of_mem_filter hf)

/-- Derives `Conforms` from the list of serialized keys, given that every
field can be written; the two conditions on the list are checked by
evaluation. -/
theorem conforms_of_keys (t : String) (p : Payload) (fs : List (String × Bool))
    (ks : List String) (h1 : catalogue.lookup t = some fs)
    (h2 : p.map Field.key = fs.map Prod.fst) (hr : ∀ f ∈ p, renders f.value = true)
    (h3 : jsonKeys p = ks)
    (h4 : ks.isSublist (fs.map Prod.fst) = true)
    (h5 : (fs.all fun f => f.2 || ks.contains f.1) = true) : Conforms t p := by
  refine ⟨fs, ks, h1, h2, ?_, List.isSublist_iff_sublist.mp h4, ?_⟩
  · rw [marshalKeys_of_renders p hr, h3]
  · intro k hk
    have := (List.all_eq_true.mp h5) _ hk
    simpa using this

theorem transfer_keys (udc : Nat) (t a : String) :
    jsonKeys [⟨"udc", true, .uint32 udc⟩, ⟨"to", false, .str t⟩, ⟨"amount", false, .str a⟩] =
      (if udc = 0 then [] else ["udc"]) ++ ["to", "amount"] := by
  by_cases h : udc = 0 <;> simp [jsonKeys_cons, jsonKeys_nil, isEmptyValue, h]

theorem issue_keys (udc : Nat) (d a : String) (ops : List String) :
    jsonKeys [⟨"udc", false, .uint32 udc⟩, ⟨"desc", true, .str d⟩,
        ⟨"operators", true, .strs ops⟩, ⟨"amount", false, .str a⟩] =
      ["udc"] ++ (if d = "" then [] else ["desc"]) ++
        (if ops = [] then [] else ["operators"]) ++ ["amount"] := by
  by_cases h : d = "" <;> by_cases h2 : ops = [] <;>
    simp [jsonKeys_cons, jsonKeys_nil, isEmptyValue, h, h2, length_eq_zero_iff]

theorem transfer_conforms (udc : Nat) (t a : String) :
    Conforms "transfer"
      [⟨"udc", true, .uint32 udc⟩, ⟨"to", false, .str t⟩, ⟨"amount", false, .str a⟩] := by
  by_cases h : udc = 0
  · exact conforms_of_keys _ _ _ ["to", "amount"] rfl rfl (by simp [renders])
      (by rw [transfer_keys]; simp [h])
      (by decide) (by decide)
  · exact conforms_of_keys _ _ _ ["udc", "to", "amount"] rfl rfl (by simp [renders])
      (by rw [transfer_keys]; simp [h]) (by decide) (by decide)

theorem issue_conforms (udc : Nat) (d a : String) (ops : List String) :
    Conforms "issue"
      [⟨"udc", false, .uint32 udc⟩, ⟨"desc", true, .str d⟩,
        ⟨"operators", true, .strs ops⟩, ⟨"amount", false, .str a⟩] := by
  by_cases h : d = "" <;> by_cases h2 : ops = []
  · exact conforms_of_keys _ _ _ ["udc", "amount"] rfl rfl (by simp [renders])
      (by rw [issue_keys]; simp [h, h2]) (by decide) (by decide)
  · exact conforms_of_keys _ _ _ ["udc", "operators", "amount"] rfl rfl (by simp [renders])
      (by rw [issue_keys]; simp [h, h2]) (by decide) (by decide)
  · exact conforms_of_keys _ _ _ ["udc", "desc", "amount"] rfl rfl (by simp [renders])
      (by rw [issue_keys]; simp [h, h2]) (by decide) (by decide)
  · exact conforms_of_keys _ _ _ ["udc", "desc", "operators", "amount"] rfl rfl (by simp [renders])
      (by rw [issue_keys]; simp [h, h2]) (by decide) (by decide)

/-! ## The builders that convert an id first -/

section IdBuilders

variable {Key : Type} (key : Key) (fee lastHeight : String)

theorem issue_sends (udcID amount desc : String) (operators : List String)
    (h : (ConvIDFromStr udcID).2 = none) :
    Sends (fun _ send => Issue send udcID amount desc operators key fee lastHeight) "issue"
      [⟨"udc", false, .uint32 (ConvIDFromStr udcID).1⟩, ⟨"desc", true, .str desc⟩,
        ⟨"operators", true, .strs operators⟩, ⟨"amount", false, .str amount⟩]
      key fee lastHeight := by
  intro σ send s
  rcases hc : ConvIDFromStr udcID with ⟨n, _ | e⟩
  · simp [Issue, hc]
  · simp [hc] at h

theorem propose_sends (draftID config desc : String) (h : (ConvIDFromStr draftID).2 = none) :
    Sends (fun _ send => Propose send draftID config desc key fee lastHeight) "propose"
      [⟨"draft_id", false, .uint32 (ConvIDFromStr draftID).1⟩, ⟨"config", false, .raw config⟩,
        ⟨"desc", false, .str desc⟩]
      key fee lastHeight := by
  intro σ send s
  rcases hc : ConvIDFromStr draftID with ⟨n, _ | e⟩
  · simp [Propose, hc]
  · simp [hc] at h

theorem vote_sends (draftID : String) (approve : Bool) (h : (ConvIDFromStr draftID).2 = none) :
    Sends (fun _ send => Vote send draftID approve key fee lastHeight) "vote"
      [⟨"draft_id", false, .uint32 (ConvIDFromStr draftID).1⟩,
        ⟨"approve", false, .bool approve⟩]
      key fee lastHeight := by
  intro σ send s
  rcases hc : ConvIDFromStr draftID with ⟨n, _ | e⟩
  · simp [Vote, hc]
  · simp [hc] at h

theorem setup_sends (storageID url regFee hostFee : String)
    (h : (ConvIDFromStr storageID).2 = none) :
    Sends (fun _ send => Setup send storageID url regFee hostFee key fee lastHeight) "setup"
      [⟨"storage", false, .uint32 (ConvIDFromStr storageID).1⟩, ⟨"url", false, .str url⟩,
        ⟨"registration_fee", false, .str regFee⟩, ⟨"hosting_fee", false, .str hostFee⟩]
      key fee lastHeight := by
  intro σ send s
  rcases hc : ConvIDFromStr storageID with ⟨n, _ | e⟩
  · simp [Setup, hc]
  · simp [hc] at h

theorem close_sends (storageID : String) (h : (ConvIDFromStr storageID).2 = none) :
    Sends (fun _ send => Close send storageID key fee lastHeight) "close"
      [⟨"storage", false, .uint32 (ConvIDFromStr storageID).1⟩]
      key fee lastHeight := by
  intro σ send s
  rcases hc : ConvIDFromStr storageID with ⟨n, _ | e⟩
  · simp [Close, hc]
  · simp [hc] at h

end IdBuilders

/-! ## Optional fields, the catalogue, id conversion -/

/-- C6: the transfer payload serializes to the keys `udc`, `to`, `amount` in
that order, `udc` left out exactly when it is 0; the issue payload (reached
when the id converts) serializes to `udc`, `desc`, `operators`, `amount` in
that order, `udc` and `amount` always, `desc` left out exactly when it is the
empty string, `operators` exactly when the list is empty. -/
theorem optional_fields_omitted {Key : Type} (toUpper : String → String) (key : Key)
    (fee lastHeight : String) :
    (∀ udc to_ amount, ∃ p,
      Sends (fun _ send => Transfer toUpper send udc to_ amount key fee lastHeight)
        "transfer" p key fee lastHeight ∧
      jsonKeys p = (if udc = 0 then [] else ["udc"]) ++ ["to", "amount"]) ∧
    (∀ udcID amount desc operators, (ConvIDFromStr udcID).2 = none → ∃ p,
      Sends (fun _ send => Issue send udcID amount desc operators key fee lastHeight)
        "issue" p key fee lastHeight ∧
      jsonKeys p = ["udc"] ++ (if desc = "" then [] else ["desc"]) ++
        (if operators = [] then [] else ["operators"]) ++ ["amount"]) := by
  refine ⟨?_, ?_⟩
  · intro udc to_ amount
    exact ⟨_, fun _ _ _ => rfl, transfer_keys _ _ _⟩
  · intro udcID amount desc operators h
    exact ⟨_, issue_sends key fee lastHeight udcID amount desc operators h, issue_keys _ _ _ _⟩

/-- A run of C6 at concrete inputs: `Issue` with id `"0"`, no description and
no operators serializes to `udc` and `amount`. -/
theorem optional_fields_omitted_witness :
    (ConvIDFromStr "0").2 = none ∧
    ∃ p, Sends (fun _ send => Issue send "0" "10" "" [] () "0" "1") "issue" p () "0" "1" ∧
      jsonKeys p = ["udc", "amount"] :=
  ⟨by decide, (optional_fields_omitted id () "0" "1").2 "0" "10" "" [] (by decide)⟩

/-- C7 fails as stated: `Propose("3", "", "")` reaches `SignSendTx`, and the
payload it hands over has an empty `config`, which is no JSON, so that
`json.Marshal` writes no object for it: there are no keys to agree with the
catalogue. -/
theorem propose_empty_config_unwritten :
    (ConvIDFromStr "3").2 = none ∧
    Sends (fun _ send => Propose send "3" "" "" () "0" "5") "propose"
      [⟨"draft_id", false, .uint32 3⟩, ⟨"config", false, .raw ""⟩, ⟨"desc", false, .str ""⟩]
      () "0" "5" ∧
    marshalKeys
      [⟨"draft_id", false, .uint32 3⟩, ⟨"config", false, .raw ""⟩, ⟨"desc", false, .str ""⟩] =
      none ∧
    ¬ Catalogued (fun _ send => Propose send "3" "" "" () "0" "5") "propose" () "0" "5" := by
  have hsend : Sends (fun _ send => Propose send "3" "" "" () "0" "5") "propose"
      [⟨"draft_id", false, .uint32 3⟩, ⟨"config", false, .raw ""⟩, ⟨"desc", false, .str ""⟩]
      () "0" "5" := by
    have h := propose_sends () "0" "5" "3" "" "" (by decide)
    have h3 : (ConvIDFromStr "3").1 = 3 := by decide
    rw [h3] at h
    exact h
  have hnone : marshalKeys
      [⟨"draft_id", false, .uint32 3⟩, ⟨"config", false, .raw ""⟩, ⟨"desc", false, .str ""⟩] =
      none := by decide
  refine ⟨by decide, hsend, hnone, ?_⟩
  rintro ⟨p, hp, fs, ks, -, -, hk, -, -⟩
  have h1 := hsend Payload (fun _ q _ _ _ _ => ((TmTxResult.zero, none), q)) []
  have h2 := hp Payload (fun _ q _ _ _ _ => ((TmTxResult.zero, none), q)) []
  rw [h1] at h2
  simp only [Prod.mk.injEq, true_and] at h2
  rw [← h2, hnone] at hk
  exact absurd hk (by simp)

/-- C7, amended: each of the sixteen builders, on every input on which it
reaches `SignSendTx` and whose raw JSON argument (`config` of propose, `extra`
of register, request and grant) is valid JSON, hands it the operation's
lowercase name, a payload whose keys are the catalogue's fields for that
operation in the catalogue's order, which `json.Marshal` writes with every
field not marked optional, and the caller's key, fee and last height. -/
theorem builders_follow_catalogue {Key : Type} (toUpper : String → String) (key : Key)
    (fee lastHeight : String) :
    (∀ udc to_ amount,
      Catalogued (fun _ send => Transfer toUpper send udc to_ amount key fee lastHeight)
        "transfer" key fee lastHeight) ∧
    (∀ udcID amount desc operators, (ConvIDFromStr udcID).2 = none →
      Catalogued (fun _ send => Issue send udcID amount desc operators key fee lastHeight)
        "issue" key fee lastHeight) ∧
    (∀ validator amount,
      Catalogued (fun _ send => Stake toUpper send validator amount key fee lastHeight)
        "stake" key fee lastHeight) ∧
    (∀ amount,
      Catalogued (fun _ send => Withdraw send amount key fee lastHeight)
        "withdraw" key fee lastHeight) ∧
    (∀ to_ amount,
      Catalogued (fun _ send => Delegate toUpper send to_ amount key fee lastHeight)
        "delegate" key fee lastHeight) ∧
    (∀ amount,
      Catalogued (fun _ send => Retract send amount key fee lastHeight)
        "retract" key fee lastHeight) ∧
    (∀ draftID config desc, (ConvIDFromStr draftID).2 = none →
      validJSON config.toList = true →
      Catalogued (fun _ send => Propose send draftID config desc key fee lastHeight)
        "propose" key fee lastHeight) ∧
    (∀ draftID approve, (ConvIDFromStr draftID).2 = none →
      Catalogued (fun _ send => Vote send draftID approve key fee lastHeight)
        "vote" key fee lastHeight) ∧
    (∀ storageID url regFee hostFee, (ConvIDFromStr storageID).2 = none →
      Catalogued (fun _ send => Setup send storageID url regFee hostFee key fee lastHeight)
        "setup" key fee lastHeight) ∧
    (∀ storageID, (ConvIDFromStr storageID).2 = none →
      Catalogued (fun _ send => Close send storageID key fee lastHeight)
        "close" key fee lastHeight) ∧
    (∀ target custody proxy extra, validJSON extra.toList = true →
      Catalogued
        (fun _ send => Register toUpper send target custody proxy extra key fee lastHeight)
        "register" key fee lastHeight) ∧
    (∀ target,
      Catalogued (fun _ send => Discard toUpper send target key fee lastHeight)
        "discard" key fee lastHeight) ∧
    (∀ target payment extra, validJSON extra.toList = true →
      Catalogued (fun _ send => Request toUpper send target payment extra key fee lastHeight)
        "request" key fee lastHeight) ∧
    (∀ target,
      Catalogued (fun _ send => Cancel toUpper send target key fee lastHeight)
        "cancel" key fee lastHeight) ∧
    (∀ target grantee custody extra, validJSON extra.toList = true →
      Catalogued
        (fun _ send => Grant toUpper send target grantee custody extra key fee lastHeight)
        "grant" key fee lastHeight) ∧
    (∀ target grantee,
      Catalogued (fun _ send => Revoke toUpper send target grantee key fee lastHeight)
        "revoke" key fee lastHeight) := by
  refine ⟨?_, ?_, ?_, ?_, ?_, ?_, ?_, ?_, ?_, ?_, ?_, ?_, ?_, ?_, ?_, ?_⟩
  · intro udc to_ amount
    exact ⟨_, fun _ _ _ => rfl, transfer_conforms _ _ _⟩
  · intro udcID amount desc operators h
    exact ⟨_, issue_sends key fee lastHeight udcID amount desc operators h,
      issue_conforms _ _ _ _⟩
  · intro validator amount
    exact ⟨_, fun _ _ _ => rfl,
      conforms_of_keys _ _ _ ["validator", "amount"] rfl rfl (by simp [renders]) rfl
        (by decide) (by decide)⟩
  · intro amount
    exact ⟨_, fun _ _ _ => rfl,
      conforms_of_keys _ _ _ ["amount"] rfl rfl (by simp [renders]) rfl (by decide)
        (by decide)⟩
  · intro to_ amount
    exact ⟨_, fun _ _ _ => rfl,
      conforms_of_keys _ _ _ ["to", "amount"] rfl rfl (by simp [renders]) rfl (by decide)
        (by decide)⟩
  · intro amount
    exact ⟨_, fun _ _ _ => rfl,
      conforms_of_keys _ _ _ ["amount"] rfl rfl (by simp [renders]) rfl (by decide)
        (by decide)⟩
  · intro draftID config desc h hv
    exact ⟨_, propose_sends key fee lastHeight draftID config desc h,
      conforms_of_keys _ _ _ ["draft_id", "config", "desc"] rfl rfl (by simpa [renders] using hv)
        rfl (by decide) (by decide)⟩
  · intro draftID approve h
    exact ⟨_, vote_sends key fee lastHeight draftID approve h,
      conforms_of_keys _ _ _ ["draft_id", "approve"] rfl rfl (by simp [renders]) rfl
        (by decide) (by decide)⟩
  · intro storageID url regFee hostFee h
    exact ⟨_, setup_sends key fee lastHeight storageID url regFee hostFee h,
      conforms_of_keys _ _ _ ["storage", "url", "registration_fee", "hosting_fee"] rfl rfl
        (by simp [renders]) rfl (by decide) (by decide)⟩
  · intro storageID h
    exact ⟨_, close_sends key fee lastHeight storageID h,
      conforms_of_keys _ _ _ ["storage"] rfl rfl (by simp [renders]) rfl (by decide)
        (by decide)⟩
  · intro target custody proxy extra hv
    exact ⟨_, fun _ _ _ => rfl,
      conforms_of_keys _ _ _ ["target", "custody", "proxy_account", "extra"] rfl rfl
        (by simpa [renders] using hv) rfl (by decide) (by decide)⟩
  · intro target
    exact ⟨_, fun _ _ _ => rfl,
      conforms_of_keys _ _ _ ["target"] rfl rfl (by simp [renders]) rfl (by decide)
        (by decide)⟩
  · intro target payment extra hv
    exact ⟨_, fun _ _ _ => rfl,
      conforms_of_keys _ _ _ ["target", "payment", "extra"] rfl rfl (by simpa [renders] using hv)
        rfl (by decide) (by decide)⟩
  · intro target
    exact ⟨_, fun _ _ _ => rfl,
      conforms_of_keys _ _ _ ["target"] rfl rfl (by simp [renders]) rfl (by decide)
        (by decide)⟩
  · intro target grantee custody extra hv
    exact ⟨_, fun _ _ _ => rfl,
      conforms_of_keys _ _ _ ["target", "grantee", "custody", "extra"] rfl rfl
        (by simpa [renders] using hv) rfl (by decide) (by decide)⟩
  · intro target grantee
    exact ⟨_, fun _ _ _ => rfl,
      conforms_of_keys _ _ _ ["target", "grantee"] rfl rfl (by simp [renders]) rfl
        (by decide) (by decide)⟩

/-- The amended C7 at concrete inputs: `Propose` with draft id `"3"` and the
config `\x7b"a":[1,2]\x7d`, which is valid JSON. -/
theorem builders_follow_catalogue_witness :
    (ConvIDFromStr "3").2 = none ∧
    validJSON "\x7b\"a\":[1,2]\x7d".toList = true ∧
    Catalogued (fun _ send => Propose send "3" "\x7b\"a\":[1,2]\x7d" "d" () "0" "5")
      "propose" () "0" "5" :=
  ⟨by decide, by decide,
    (builders_follow_catalogue id () "0" "5").2.2.2.2.2.2.1 "3" "\x7b\"a\":[1,2]\x7d" "d"
      (by decide) (by decide)⟩

/-- C10: when `ConvIDFromStr` fails on the id argument of `Issue`, `Propose`,
`Vote`, `Setup` or `Close`, the builder returns the zero `TmTxResult` with
that same error and leaves the state `SignSendTx` acts on as it was, whatever
`SignSendTx` is: it is not invoked. -/
theorem id_failure_unsent {Key : Type} (key : Key) (fee lastHeight : String) (err : Error) :
    (∀ udcID amount desc operators, (ConvIDFromStr udcID).2 = some err →
      ReturnsUnsent (fun _ send => Issue send udcID amount desc operators key fee lastHeight)
        (TmTxResult.zero, some err)) ∧
    (∀ draftID config desc, (ConvIDFromStr draftID).2 = some err →
      ReturnsUnsent (fun _ send => Propose send draftID config desc key fee lastHeight)
        (TmTxResult.zero, some err)) ∧
    (∀ draftID approve, (ConvIDFromStr draftID).2 = some err →
      ReturnsUnsent (fun _ send => Vote send draftID approve key fee lastHeight)
        (TmTxResult.zero, some err)) ∧
    (∀ storageID url regFee hostFee, (ConvIDFromStr storageID).2 = some err →
      ReturnsUnsent (fun _ send => Setup send storageID url regFee hostFee key fee lastHeight)
        (TmTxResult.zero, some err)) ∧
    (∀ storageID, (ConvIDFromStr storageID).2 = some err →
      ReturnsUnsent (fun _ send => Close send storageID key fee lastHeight)
        (TmTxResult.zero, some err)) := by
  refine ⟨?_, ?_, ?_, ?_, ?_⟩
  · intro udcID amount desc operators h σ send s
    rcases hc : ConvIDFromStr udcID with ⟨n, _ | e⟩
    · simp [hc] at h
    · simp [hc] at h; simp [Issue, hc, h]
  · intro draftID config desc h σ send s
    rcases hc : ConvIDFromStr draftID with ⟨n, _ | e⟩
    · simp [hc] at h
    · simp [hc] at h; simp [Propose, hc, h]
  · intro draftID approve h σ send s
    rcases hc : ConvIDFromStr draftID with ⟨n, _ | e⟩
    · simp [hc] at h
    · simp [hc] at h; simp [Vote, hc, h]
  · intro storageID url regFee hostFee h σ send s
    rcases hc : ConvIDFromStr storageID with ⟨n, _ | e⟩
    · simp [hc] at h
    · simp [hc] at h; simp [Setup, hc, h]
  · intro storageID h σ send s
    rcases hc : ConvIDFromStr storageID with ⟨n, _ | e⟩
    · simp [hc] at h
    · simp [hc] at h; simp [Close, hc, h]

/-- A run of C10 at concrete inputs: `Vote` on the draft id `"x1"`, which is
no number. -/
theorem id_failure_unsent_witness :
    (ConvIDFromStr "x1").2 = some (.numError "ParseInt" "x1" .ErrSyntax) ∧
    ReturnsUnsent (fun _ send => Vote send "x1" true () "0" "5")
      (TmTxResult.zero, some (.numError "ParseInt" "x1" .ErrSyntax)) :=
  ⟨by decide,
    (id_failure_unsent () "0" "5" (.numError "ParseInt" "x1" .ErrSyntax)).2.2.1 "x1" true
      (by decide)⟩

/-! ## The quote guard of `Currency.UnmarshalJSON` -/

/-- C5: an input shorter than two bytes, or whose first or last byte is not a
double quote, makes `Currency.UnmarshalJSON` return its error and leaves the
receiver holding the value it had. -/
theorem unquoted_rejected (c : Currency) (b : List Char)
    (h : b.length < 2 ∨ b.head? ≠ some '"' ∨ b.getLast? ≠ some '"') :
    (c.UnmarshalJSON b).err = some (.notQuoted b) ∧ (c.UnmarshalJSON b).recv = some c := by
  simp [Currency.UnmarshalJSON, h]

/-- C5 at the bare number `1000000000000000000`. -/
theorem unquoted_rejected_witness :
    ("1000000000000000000".toList.head? ≠ some '"') ∧
    ((Currency.mk 7).UnmarshalJSON "1000000000000000000".toList).err =
      some (.notQuoted "1000000000000000000".toList) ∧
    ((Currency.mk 7).UnmarshalJSON "1000000000000000000".toList).recv = some ⟨7⟩ :=
  ⟨by decide, unquoted_rejected ⟨7⟩ "1000000000000000000".toList (Or.inr (Or.inl (by decide)))⟩


/-! ## The last height in `transferFunc` -/

/-- What `transferFunc` does once flags, key and cursor are read, the
broadcast has succeeded and dry-run mode is off: the cursor is written exactly
when the reported height is not `"0"`, and then with that height. -/
theorem transferFunc_after_broadcast {Key ν : Type} (cli : Cli Key ν) (arg0 arg1 : String)
    (w : World ν) (hj : cli.jsonFlag.2 = none) (hk : cli.GetUserKey.2 = none)
    (hr : cli.readErr = none) (hu : cli.udcFlag.2 = none)
    (hb : (broadcast cli arg0 arg1 w).1.2 = none) (hd : cli.DryRun = false) :
    (transferFunc cli arg0 arg1 w).2.lastHeight =
        (if (broadcast cli arg0 arg1 w).1.1.Height = "0" then w.lastHeight
          else (broadcast cli arg0 arg1 w).1.1.Height) ∧
      (transferFunc cli arg0 arg1 w).2.heightWrites =
        (if (broadcast cli arg0 arg1 w).1.1.Height = "0" then w.heightWrites
          else w.heightWrites ++ [(broadcast cli arg0 arg1 w).1.1.Height]) := by
  rcases cli with ⟨⟨asJson, je⟩, ⟨udc, ue⟩, ⟨key, ke⟩, re, dry, fee, up, send, jm⟩
  simp only at hj hk hr hu hd
  subst hj hk hr hu hd
  simp only [broadcast] at hb ⊢
  simp only [transferFunc, GetLastHeight]
  rcases hT : Transfer up send udc arg0 arg1 key fee w.lastHeight w.node with
    ⟨⟨result, _ | e⟩, node⟩
  · by_cases hh : result.Height = "0"
    · cases asJson
      · simp [hh]
      · rcases hm : jm result with ⟨js, _ | e⟩ <;> simp [hh, hm]
    · cases asJson
      · simp [hh, SetLastHeight]
      · rcases hm : jm result with ⟨js, _ | e⟩ <;> simp [hh, hm, SetLastHeight]
  · rw [hT] at hb
    simp at hb

/-- A run of `transferFunc` that returns no error got an answer without error
from the broadcast; it leaves the cursor as it was and `SetLastHeight`
uncalled in dry-run mode or when the reported height is `"0"`, and otherwise
calls `SetLastHeight` once, with the reported height, which the cursor then
holds. -/
theorem transferFunc_of_success {Key ν : Type} (cli : Cli Key ν) (arg0 arg1 : String)
    (w : World ν) (hok : (transferFunc cli arg0 arg1 w).1 = none) :
    (broadcast cli arg0 arg1 w).1.2 = none ∧
    (transferFunc cli arg0 arg1 w).2.lastHeight =
      (if cli.DryRun = true ∨ (broadcast cli arg0 arg1 w).1.1.Height = "0" then w.lastHeight
        else (broadcast cli arg0 arg1 w).1.1.Height) ∧
    (transferFunc cli arg0 arg1 w).2.heightWrites =
      (if cli.DryRun = true ∨ (broadcast cli arg0 arg1 w).1.1.Height = "0" then
        w.heightWrites
        else w.heightWrites ++ [(broadcast cli arg0 arg1 w).1.1.Height]) := by
  rcases cli with ⟨⟨asJson, je⟩, ⟨udc, ue⟩, ⟨key, ke⟩, re, dry, fee, up, send, jm⟩
  simp only [broadcast]
  simp only [transferFunc, GetLastHeight] at hok ⊢
  rcases je with _ | je
  swap
  · simp at hok
  rcases ke with _ | ke
  swap
  · simp at hok
  rcases re with _ | re
  swap
  · simp at hok
  rcases ue with _ | ue
  swap
  · simp at hok
  simp only at hok ⊢
  rcases hT : Transfer up send udc arg0 arg1 key fee w.lastHeight w.node with
    ⟨⟨result, _ | e⟩, node⟩
  · rw [hT] at hok
    cases dry
    · by_cases hh : result.Height = "0"
      · cases asJson
        · simp [hh]
        · rcases hm : jm result with ⟨js, _ | e⟩ <;> simp [hh, hm]
      · cases asJson
        · simp [hh, SetLastHeight]
        · rcases hm : jm result with ⟨js, _ | e⟩ <;> simp [hh, hm, SetLastHeight]
    · simp
  · rw [hT] at hok
    simp at hok

/-- C8: after a successful broadcast outside dry-run mode, a reported height
`"0"` leaves the persisted cursor as it was and `SetLastHeight` uncalled; any
other reported height `h` is written, once, and the cursor holds `h`. -/
theorem cursor_update_rule {Key ν : Type} (cli : Cli Key ν) (arg0 arg1 : String)
    (w : World ν) (hj : cli.jsonFlag.2 = none) (hk : cli.GetUserKey.2 = none)
    (hr : cli.readErr = none) (hu : cli.udcFlag.2 = none)
    (hb : (broadcast cli arg0 arg1 w).1.2 = none) (hd : cli.DryRun = false) :
    ((broadcast cli arg0 arg1 w).1.1.Height = "0" →
      (transferFunc cli arg0 arg1 w).2.lastHeight = w.lastHeight ∧
      (transferFunc cli arg0 arg1 w).2.heightWrites = w.heightWrites) ∧
    ((broadcast cli arg0 arg1 w).1.1.Height ≠ "0" →
      (transferFunc cli arg0 arg1 w).2.lastHeight = (broadcast cli arg0 arg1 w).1.1.Height ∧
      (transferFunc cli arg0 arg1 w).2.heightWrites =
        w.heightWrites ++ [(broadcast cli arg0 arg1 w).1.1.Height]) := by
  have key := transferFunc_after_broadcast cli arg0 arg1 w hj hk hr hu hb hd
  refine ⟨fun h0 => ?_, fun h0 => ?_⟩
  · simpa [h0] using key
  · simpa [h0] using key

/-- C8 at a broadcast reporting height `"123"`, from the cursor `"7"`: the
cursor becomes `"123"`. -/
theorem cursor_update_rule_witness :
    (broadcast (demoCli "123") "2f2f" "10" ⟨"7", [], [], ()⟩).1.1.Height ≠ "0" ∧
    (transferFunc (demoCli "123") "2f2f" "10" ⟨"7", [], [], ()⟩).2.lastHeight = "123" ∧
    (transferFunc (demoCli "123") "2f2f" "10" ⟨"7", [], [], ()⟩).2.heightWrites = ["123"] :=
  ⟨by decide,
    (cursor_update_rule (demoCli "123") "2f2f" "10" ⟨"7", [], [], ()⟩ rfl rfl rfl rfl rfl
      rfl).2 (by decide)⟩

/-- C9 fails as stated: from the cursor `"123"`, a successful run whose
broadcast reports height `"5"` leaves the cursor at `"5"`, below its value
before the run. -/
theorem cursor_can_decrease :
    (transferFunc (demoCli "5") "2f2f" "10" ⟨"123", [], [], ()⟩).1 = none ∧
    (transferFunc (demoCli "5") "2f2f" "10" ⟨"123", [], [], ()⟩).2.lastHeight = "5" ∧
    ¬ (heightVal "123" ≤
      heightVal (transferFunc (demoCli "5") "2f2f" "10" ⟨"123", [], [], ()⟩).2.lastHeight) := by
  decide

/-- C9, amended: a run of `transferFunc` that returns no error got an answer
without error from the broadcast; in dry-run mode or when the reported height
is `"0"` it leaves the cursor as it was and does not call `SetLastHeight`;
otherwise it calls `SetLastHeight` once and the cursor holds the reported
height.  So the cursor after the run is not below the cursor before it exactly
when the run is a dry run, the reported height is `"0"`, or the reported
height is not below the cursor before the run. -/
theorem cursor_follows_report {Key ν : Type} (cli : Cli Key ν) (arg0 arg1 : String)
    (w : World ν) (hok : (transferFunc cli arg0 arg1 w).1 = none) :
    (broadcast cli arg0 arg1 w).1.2 = none ∧
    (transferFunc cli arg0 arg1 w).2.lastHeight =
      (if cli.DryRun = true ∨ (broadcast cli arg0 arg1 w).1.1.Height = "0" then w.lastHeight
        else (broadcast cli arg0 arg1 w).1.1.Height) ∧
    (transferFunc cli arg0 arg1 w).2.heightWrites =
      (if cli.DryRun = true ∨ (broadcast cli arg0 arg1 w).1.1.Height = "0" then
        w.heightWrites
        else w.heightWrites ++ [(broadcast cli arg0 arg1 w).1.1.Height]) ∧
    (heightVal w.lastHeight ≤ heightVal (transferFunc cli arg0 arg1 w).2.lastHeight ↔
      cli.DryRun = true ∨ (broadcast cli arg0 arg1 w).1.1.Height = "0" ∨
        heightVal w.lastHeight ≤ heightVal (broadcast cli arg0 arg1 w).1.1.Height) := by
  obtain ⟨hb, hl, hw⟩ := transferFunc_of_success cli arg0 arg1 w hok
  refine ⟨hb, hl, hw, ?_⟩
  rw [hl]
  by_cases hc : cli.DryRun = true ∨ (broadcast cli arg0 arg1 w).1.1.Height = "0"
  · rw [if_pos hc]
    constructor
    · intro _
      rcases hc with hc | hc
      · exact Or.inl hc
      · exact Or.inr (Or.inl hc)
    · intro _
      exact le_refl _
  · rw [if_neg hc]
    constructor
    · intro hle
      exact Or.inr (Or.inr hle)
    · rintro (hd | h0 | hle)
      · exact absurd (Or.inl hd) hc
      · exact absurd (Or.inr h0) hc
      · exact hle

/-- The amended C9 at a broadcast reporting height `"124"`, from the cursor
`"123"`: the cursor is written once and holds `"124"`, which is not below
`"123"`. -/
theorem cursor_follows_report_witness :
    (transferFunc (demoCli "124") "2f2f" "10" ⟨"123", [], [], ()⟩).1 = none ∧
    (transferFunc (demoCli "124") "2f2f" "10" ⟨"123", [], [], ()⟩).2.lastHeight = "124" ∧
    (transferFunc (demoCli "124") "2f2f" "10" ⟨"123", [], [], ()⟩).2.heightWrites =
      ["124"] ∧
    heightVal "123" ≤
      heightVal (transferFunc (demoCli "124") "2f2f" "10" ⟨"123", [], [], ()⟩).2.lastHeight :=
  ⟨by decide,
    (cursor_follows_report (demoCli "124") "2f2f" "10" ⟨"123", [], [], ()⟩
      (by decide)).2.1.trans (by decide),
    (cursor_follows_report (demoCli "124") "2f2f" "10" ⟨"123", [], [], ()⟩
      (by decide)).2.2.1.trans (by decide),
    (cursor_follows_report (demoCli "124") "2f2f" "10" ⟨"123", [], [], ()⟩
      (by decide)).2.2.2.mpr (Or.inr (Or.inr (by decide)))⟩

/-! ## Digits -/

theorem isDigit_iff (c : Char) : isDigit c = true ↔ 48 ≤ c.toNat ∧ c.toNat ≤ 57 := by
  simp only [isDigit, decide_eq_true_eq, Char.le_def]
  exact Iff.rfl

theorem digitChar_toNat (c : Char) (h : isDigit c = true) :
    digitChar (c.toNat - '0'.toNat) = c := by
  obtain ⟨h1, h2⟩ := (isDigit_iff c).mp h
  have h3 : c.toNat - '0'.toNat + '0'.toNat = c.toNat := by
    have : '0'.toNat = 48 := rfl
    omega
  rw [digitChar, h3, Char.ofNat_toNat]

theorem digit_sub_lt (c : Char) (h : isDigit c = true) : c.toNat - '0'.toNat < 10 := by
  obtain ⟨h1, h2⟩ := (isDigit_iff c).mp h
  have : '0'.toNat = 48 := rfl
  omega

theorem digitVal_of_digit (c : Char) (h : isDigit c = true) :
    digitVal c = c.toNat - '0'.toNat := by
  have h' : '0' ≤ c ∧ c ≤ '9' := by simpa [isDigit] using h
  simp [digitVal, h']

theorem decVal_nil : decVal [] = 0 := rfl

theorem decVal_concat (ds : List Char) (d : Char) :
    decVal (ds ++ [d]) = decVal ds * 10 + (d.toNat - '0'.toNat) := by
  simp [decVal, List.foldl_append]

theorem foldl_dec_ge (ds : List Char) (v : Nat) :
    v ≤ ds.foldl (fun v c => v * 10 + (c.toNat - '0'.toNat)) v := by
  induction ds generalizing v with
  | nil => simp
  | cons d ds ih =>
    simp only [List.foldl_cons]
    exact le_trans (by omega) (ih _)

theorem decVal_pos (c : Char) (cs : List Char) (hd : isDigit c = true) (h0 : c ≠ '0') :
    0 < decVal (c :: cs) := by
  have h1 : 1 ≤ c.toNat - '0'.toNat := by
    obtain ⟨h1, h2⟩ := (isDigit_iff c).mp hd
    have h48 : '0'.toNat = 48 := rfl
    have : c.toNat ≠ 48 := by
      intro hc
      apply h0
      rw [← Char.ofNat_toNat c, hc]
    omega
  have := foldl_dec_ge cs (0 * 10 + (c.toNat - '0'.toNat))
  simp only [decVal, List.foldl_cons]
  omega

/-! ## Base-10 text -/

theorem natTextAux_acc (f n : Nat) (acc : List Char) :
    natTextAux f n acc = natTextAux f n [] ++ acc := by
  induction f generalizing n acc with
  | zero => simp [natTextAux]
  | succ f ih =>
    simp only [natTextAux]
    split
    · simp
    · rw [ih, ih (n / 10) [digitChar (n % 10)]]
      simp

theorem natTextAux_fuel (m : Nat) : ∀ (f : Nat) (acc : List Char), m < f →
    natTextAux f m acc = natTextAux (m + 1) m acc := by
  induction m using Nat.strong_induction_on with
  | _ m ih =>
    intro f acc hf
    obtain ⟨f, rfl⟩ : ∃ g, f = g + 1 := ⟨f - 1, by omega⟩
    simp only [natTextAux]
    split
    · rfl
    · rename_i h10
      have hlt : m / 10 < m := Nat.div_lt_self (by omega) (by omega)
      rw [ih (m / 10) hlt f _ (by omega), ih (m / 10) hlt m _ hlt]

theorem natText_lt (n : Nat) (h : n < 10) : natText n = [digitChar n] := by
  simp [natText, natTextAux, h]

theorem natText_step (n : Nat) (h : 10 ≤ n) :
    natText n = natText (n / 10) ++ [digitChar (n % 10)] := by
  have hlt : n / 10 < n := Nat.div_lt_self (by omega) (by omega)
  have h' : ¬ n < 10 := by omega
  have e : natText n = natTextAux n (n / 10) [digitChar (n % 10)] := by
    rw [natText, natTextAux, if_neg h']
  rw [e, natTextAux_acc, natTextAux_fuel (n / 10) n [] hlt]
  rfl

theorem natText_decVal (s : List Char) (h : Canonical s) : natText (decVal s) = s := by
  induction s using List.reverseRecOn with
  | nil => exact absurd rfl h.1
  | append_singleton init d ih =>
    obtain ⟨_, hdig, hz⟩ := h
    have hd : isDigit d = true := hdig d (by simp)
    rw [decVal_concat]
    rcases init with _ | ⟨c, cs⟩
    · simp only [decVal_nil, Nat.zero_mul, Nat.zero_add, List.nil_append]
      rw [natText_lt _ (digit_sub_lt d hd), digitChar_toNat d hd]
    · have hc : isDigit c = true := hdig c (by simp)
      have hc0 : c ≠ '0' := by
        intro h0
        have := hz (by simp [h0])
        simp at this
      have hcan : Canonical (c :: cs) :=
        ⟨by simp, fun ch hch => hdig ch (by simp at hch ⊢; tauto),
          fun h0 => absurd (by simpa using h0) hc0⟩
      have hpos := decVal_pos c cs hc hc0
      have hlt := digit_sub_lt d hd
      rw [natText_step _ (by omega)]
      have e1 : (decVal (c :: cs) * 10 + (d.toNat - '0'.toNat)) / 10 = decVal (c :: cs) := by
        omega
      have e2 : (decVal (c :: cs) * 10 + (d.toNat - '0'.toNat)) % 10 = d.toNat - '0'.toNat := by
        omega
      rw [e1, e2, ih hcan, digitChar_toNat d hd]

/-! ## `nat.scan` on decimal digits -/

theorem digit_ne_underscore (d : Char) (hd : isDigit d = true) : d ≠ '_' := by
  rintro rfl
  exact absurd hd (by decide)

theorem natScanLoop_digit (d : Char) (cs : List Char) (v n : Nat) (prev : Char) (inval : Bool)
    (hd : isDigit d = true) :
    natScanLoop 10 (d :: cs) v n prev inval =
      natScanLoop 10 cs (v * 10 + (d.toNat - '0'.toNat)) (n + 1) '0' inval := by
  have h1 := digit_ne_underscore d hd
  have h2 : ¬ digitVal d ≥ 10 := by
    rw [digitVal_of_digit d hd]
    have := digit_sub_lt d hd
    omega
  rw [natScanLoop, if_neg h1, if_neg h2, digitVal_of_digit d hd]

theorem natScanLoop_digits (ds rest : List Char) (v n : Nat) (inval : Bool)
    (hd : ∀ c ∈ ds, isDigit c = true) :
    natScanLoop 10 (ds ++ rest) v n '0' inval =
      natScanLoop 10 rest (ds.foldl (fun v c => v * 10 + (c.toNat - '0'.toNat)) v)
        (n + ds.length) '0' inval := by
  induction ds generalizing v n with
  | nil => simp
  | cons d ds ih =>
    rw [List.cons_append, natScanLoop_digit d _ v n '0' inval (hd d (by simp)),
      ih _ _ (fun c hc => hd c (by simp [hc]))]
    simp only [List.foldl_cons, List.length_cons]
    congr 1
    omega

theorem natScanLoop_tail (b : Nat) (hb : b = 8 ∨ b = 10) (t : List Char) (ht : NumberTail t)
    (v n : Nat) (prev : Char) (inval : Bool) :
    natScanLoop b t v n prev inval = ⟨v, n, prev, inval, t⟩ := by
  rcases ht with rfl | ⟨x, r, rfl, hx⟩
  · rfl
  · have h1 : x ≠ '_' := by rcases hx with rfl | rfl | rfl <;> decide
    have h2 : digitVal x ≥ b := by
      rcases hx with rfl | rfl | rfl <;> rcases hb with rfl | rfl <;> decide
    rw [natScanLoop, if_neg h1, if_pos h2]

theorem natScan_canonical (i t : List Char) (hi : Canonical i) (ht : NumberTail t) :
    natScan (i ++ t) = some (decVal i, t) := by
  obtain ⟨hne, hdig, hz⟩ := hi
  rcases i with _ | ⟨c, cs⟩
  · exact absurd rfl hne
  · by_cases hc : c = '0'
    · have := hz (by simp [hc])
      simp only [List.cons.injEq] at this
      obtain ⟨-, rfl⟩ := this
      subst hc
      rcases ht with rfl | ⟨x, r, rfl, hx⟩
      · rfl
      · have hoct : ¬ (x = 'b' ∨ x = 'B' ∨ x = 'o' ∨ x = 'O' ∨ x = 'x' ∨ x = 'X') := by
          rcases hx with rfl | rfl | rfl <;> decide
        have hb : (if x = 'b' ∨ x = 'B' then 2 else if x = 'x' ∨ x = 'X' then 16 else 8) = 8 := by
          rcases hx with rfl | rfl | rfl <;> decide
        simp only [natScan, List.cons_append, List.nil_append, if_true, hb, hoct,
          not_false_eq_true, decide_True]
        rw [natScanLoop_tail 8 (Or.inl rfl) (x :: r) (Or.inr ⟨x, r, rfl, hx⟩)]
        simp [decVal]
    · have hcd : isDigit c = true := hdig c (by simp)
      simp only [natScan, List.cons_append, if_neg hc]
      rw [natScanLoop_digit c _ 0 0 '.' false hcd,
        natScanLoop_digits cs t _ _ false (fun x hx => hdig x (by simp [hx])),
        natScanLoop_tail 10 (Or.inr rfl) t ht]
      simp [decVal]

theorem bigIntUnmarshalText_canonical (i t : List Char) (hi : Canonical i)
    (ht : NumberTail t) :
    bigIntUnmarshalText (i ++ t) = if t = [] then some (decVal i : Int) else none := by
  obtain ⟨c, cs, rfl⟩ : ∃ c cs, i = c :: cs := by
    rcases i with _ | ⟨c, cs⟩
    · exact absurd rfl hi.1
    · exact ⟨c, cs, rfl⟩
  have hcd : isDigit c = true := hi.2.1 c (by simp)
  have h1 : ¬ (c = '-' ∨ c = '+') := by
    rintro (rfl | rfl) <;> exact absurd hcd (by decide)
  have h2 : c ≠ '-' := fun h => h1 (Or.inl h)
  have hs := natScan_canonical (c :: cs) t hi ht
  simp only [List.cons_append] at hs
  simp only [bigIntUnmarshalText, List.cons_append, if_neg h1, hs, if_neg h2]
  rcases t with _ | ⟨x, r⟩ <;> simp

theorem bigIntUnmarshalText_minus (i t : List Char) (hi : Canonical i) (ht : NumberTail t) :
    bigIntUnmarshalText ('-' :: (i ++ t)) = if t = [] then some (-(decVal i : Int)) else none := by
  have hs := natScan_canonical i t hi ht
  simp only [bigIntUnmarshalText, true_or, if_true, hs]
  rcases t with _ | ⟨x, r⟩ <;> simp

/-! ## The JSON scanner -/

theorem skipSpace_of_not_space (c : Char) (cs : List Char) (h : isSpace c = false) :
    skipSpace (c :: cs) = c :: cs := by
  simp [skipSpace, h]

theorem digit_not_space (c : Char) (h : isDigit c = true) : isSpace c = false := by
  obtain ⟨h1, h2⟩ := (isDigit_iff c).mp h
  have e : ∀ x : Char, c = x → c.toNat = x.toNat := fun x hx => by rw [hx]
  simp only [isSpace, decide_eq_false_iff_not, not_or]
  refine ⟨?_, ?_, ?_, ?_⟩ <;> intro hc <;> have := e _ hc <;> simp at this <;> omega

theorem scanInt_canonical (s r : List Char) (hs : Canonical s)
    (hr : r = [] ∨ ∃ x t, r = x :: t ∧ isDigit x = false) :
    scanInt (s ++ r) = some (s, r) := by
  obtain ⟨hne, hdig, hz⟩ := hs
  rcases s with _ | ⟨c, cs⟩
  · exact absurd rfl hne
  · by_cases hc : c = '0'
    · have := hz (by simp [hc])
      simp only [List.cons.injEq] at this
      obtain ⟨-, rfl⟩ := this
      simp [scanInt, hc]
    · have hcd : isDigit c = true := hdig c (by simp)
      have h19 : '1' ≤ c ∧ c ≤ '9' := by
        have hd' : '0' ≤ c ∧ c ≤ '9' := by simpa [isDigit] using hcd
        refine ⟨?_, hd'.2⟩
        obtain ⟨h1, h2⟩ := (isDigit_iff c).mp hcd
        have : c.toNat ≠ 48 := by
          intro h48
          apply hc
          rw [← Char.ofNat_toNat c, h48]
        rw [Char.le_def]
        show (49 : Nat) ≤ c.toNat
        omega
      have hcs : ∀ x ∈ cs, isDigit x = true := fun x hx => hdig x (by simp [hx])
      have htake : (cs ++ r).takeWhile isDigit = cs := by
        rcases hr with rfl | ⟨x, t, rfl, hx⟩
        · simpa using List.takeWhile_eq_self_iff.mpr hcs
        · rw [List.takeWhile_append_of_pos hcs]
          simp [List.takeWhile, hx]
      have hdrop : (cs ++ r).dropWhile isDigit = r := by
        rcases hr with rfl | ⟨x, t, rfl, hx⟩
        · simpa using List.dropWhile_eq_nil_iff.mpr hcs
        · rw [List.dropWhile_append_of_pos hcs]
          simp [List.dropWhile, hx]
      simp only [List.cons_append, scanInt, if_neg hc, h19, and_self, if_true, htake, hdrop]

theorem scanNumber_canonical (s : List Char) (hs : Canonical s) :
    scanNumber s = some (s, []) := by
  obtain ⟨c, cs, rfl⟩ : ∃ c cs, s = c :: cs := by
    rcases s with _ | ⟨c, cs⟩
    · exact absurd rfl hs.1
    · exact ⟨c, cs, rfl⟩
  have hcd : isDigit c = true := hs.2.1 c (by simp)
  have hm : ¬ ((c :: cs).head? = some '-') := by
    simp only [List.head?_cons, Option.some.injEq]
    rintro rfl
    exact absurd hcd (by decide)
  have hi := scanInt_canonical (c :: cs) [] hs (Or.inl rfl)
  rw [List.append_nil] at hi
  unfold scanNumber
  simp only [if_neg hm]
  rw [hi]
  simp only [scanFrac, scanExp]
  simp

theorem scanNumber_minus (s : List Char) (hs : Canonical s) :
    scanNumber ('-' :: s) = some ('-' :: s, []) := by
  have hi := scanInt_canonical s [] hs (Or.inl rfl)
  rw [List.append_nil] at hi
  unfold scanNumber
  simp only [List.head?_cons, if_true, List.tail_cons]
  rw [hi]
  simp only [scanFrac, scanExp]
  simp

theorem jsonUnmarshalBigInt_canonical (s : List Char) (z : Int) (hs : Canonical s) :
    jsonUnmarshalBigInt s z = ⟨none, some (decVal s : Int)⟩ := by
  obtain ⟨c, cs, rfl⟩ : ∃ c cs, s = c :: cs := by
    rcases s with _ | ⟨c, cs⟩
    · exact absurd rfl hs.1
    · exact ⟨c, cs, rfl⟩
  have hcd : isDigit c = true := hs.2.1 c (by simp)
  have hn : c ≠ 'n' := by
    rintro rfl
    exact absurd hcd (by decide)
  have hb := bigIntUnmarshalText_canonical (c :: cs) [] hs (Or.inl rfl)
  rw [List.append_nil] at hb
  unfold jsonUnmarshalBigInt
  rw [skipSpace_of_not_space c cs (digit_not_space c hcd)]
  simp only [if_neg hn, hcd, or_true, if_true]
  rw [scanNumber_canonical (c :: cs) hs]
  simp only [skipSpace, if_true]
  rw [hb]
  simp

theorem jsonUnmarshalBigInt_minus (s : List Char) (z : Int) (hs : Canonical s) :
    jsonUnmarshalBigInt ('-' :: s) z = ⟨none, some (-(decVal s : Int))⟩ := by
  have hb := bigIntUnmarshalText_minus s [] hs (Or.inl rfl)
  rw [List.append_nil] at hb
  have hsp : skipSpace ('-' :: s) = '-' :: s := skipSpace_of_not_space _ _ (by decide)
  have hn : ¬ ('-' = 'n') := by decide
  unfold jsonUnmarshalBigInt
  rw [hsp]
  simp only [if_neg hn, true_or, if_true]
  rw [scanNumber_minus s hs]
  simp only [skipSpace, if_true]
  rw [hb]
  simp

theorem quoted_guard (s : List Char) :
    ¬ ((('"' :: (s ++ ['"'])).length < 2) ∨ ('"' :: (s ++ ['"'])).head? ≠ some '"' ∨
      ('"' :: (s ++ ['"'])).getLast? ≠ some '"') := by
  have h : ('"' :: (s ++ ['"'])).getLast? = some '"' := by
    rw [show '"' :: (s ++ ['"']) = ('"' :: s) ++ ['"'] from rfl, List.getLast?_append]
    simp
  simp [h]

theorem quoted_inner (s : List Char) :
    (('"' :: (s ++ ['"'])).drop 1).take (('"' :: (s ++ ['"'])).length - 2) = s := by
  simp

/-- C3 fails as stated: `007` is a non-empty string of decimal digits, and
`Currency.UnmarshalJSON` rejects it in quotes. -/
theorem leading_zero_rejected :
    "007".toList ≠ [] ∧ (∀ ch ∈ "007".toList, isDigit ch = true) ∧
    ((Currency.mk 0).UnmarshalJSON "\"007\"".toList).err ≠ none := by
  decide

/-- C3, amended: for every decimal numeral `s` without a leading zero (digits,
not empty, starting with `0` only when it is `0` itself),
`Currency.UnmarshalJSON` of `s` in double quotes succeeds and
`Currency.MarshalJSON` of the decoded value returns the same quoted bytes. -/
theorem currency_wire_round_trip (c : Currency) (s : List Char) (hs : Canonical s) :
    ∃ c', c.UnmarshalJSON ('"' :: (s ++ ['"'])) = ⟨none, some c'⟩ ∧
      c'.MarshalJSON = ('"' :: (s ++ ['"']), none) := by
  refine ⟨⟨(decVal s : Int)⟩, ?_, ?_⟩
  · unfold Currency.UnmarshalJSON
    rw [if_neg (quoted_guard s), quoted_inner, jsonUnmarshalBigInt_canonical s c.val hs]
    rfl
  · have h0 : ¬ ((decVal s : Int) < 0) := by omega
    simp only [Currency.MarshalJSON, intText, if_neg h0, Int.natAbs_ofNat, natText_decVal s hs]

/-- The amended C3 at `1000000000000000000`. -/
theorem currency_wire_round_trip_witness :
    Canonical "1000000000000000000".toList ∧
    ∃ c', (Currency.mk 0).UnmarshalJSON "\"1000000000000000000\"".toList = ⟨none, some c'⟩ ∧
      c'.MarshalJSON = ("\"1000000000000000000\"".toList, none) :=
  ⟨⟨by decide, by decide, by decide⟩,
    currency_wire_round_trip ⟨0⟩ "1000000000000000000".toList
      ⟨by decide, by decide, by decide⟩⟩

/-- C11: for every identifier `x`, `getOp` returns for `download`, `upload` and
`remove` exactly the descriptor with `name` first and then `id` (`hash` for an
upload) holding `x`, no white space, and no error; for every other name it
returns an error and the empty descriptor.  The four calls of the test come
out as the test expects. -/
theorem getOp_descriptor (x : String) :
    getOp "download" x = ("\x7b\"name\":\"download\",\"id\":\"" ++ x ++ "\"\x7d", none) ∧
    getOp "upload" x = ("\x7b\"name\":\"upload\",\"hash\":\"" ++ x ++ "\"\x7d", none) ∧
    getOp "remove" x = ("\x7b\"name\":\"remove\",\"id\":\"" ++ x ++ "\"\x7d", none) ∧
    (∀ name, name ≠ "download" → name ≠ "upload" → name ≠ "remove" →
      (getOp name x).1 = "" ∧ (getOp name x).2 ≠ none) ∧
    getOp "download" "2f2f" = ("\x7b\"name\":\"download\",\"id\":\"2f2f\"\x7d", none) ∧
    getOp "upload" "ffff" = ("\x7b\"name\":\"upload\",\"hash\":\"ffff\"\x7d", none) ∧
    getOp "remove" "3f3f" = ("\x7b\"name\":\"remove\",\"id\":\"3f3f\"\x7d", none) := by
  refine ⟨rfl, rfl, rfl, ?_, by decide, by decide, by decide⟩
  intro name h1 h2 h3
  simp [getOp, h1, h2, h3]

/-- C11 at the unknown name of the test: `getOp("unknown", "blah")` is an
error with an empty descriptor. -/
theorem getOp_descriptor_witness :
    (getOp "unknown" "blah").1 = "" ∧ (getOp "unknown" "blah").2 ≠ none :=
  (getOp_descriptor "blah").2.2.2.1 "unknown" (by decide) (by decide) (by decide)

/-! ## Runs of `transferFunc` that leave the cursor alone -/

/-- C12: when reading a flag, the key or the cursor fails, when `rpc.Transfer`
returns an error, or in dry-run mode, `transferFunc` does not call
`SetLastHeight` and the persisted cursor holds the value it had before. -/
theorem cursor_kept_unless_accepted {Key ν : Type} (cli : Cli Key ν) (arg0 arg1 : String)
    (w : World ν)
    (h : cli.jsonFlag.2 ≠ none ∨ cli.GetUserKey.2 ≠ none ∨ cli.readErr ≠ none ∨
      cli.udcFlag.2 ≠ none ∨ (broadcast cli arg0 arg1 w).1.2 ≠ none ∨ cli.DryRun = true) :
    (transferFunc cli arg0 arg1 w).2.heightWrites = w.heightWrites ∧
      (transferFunc cli arg0 arg1 w).2.lastHeight = w.lastHeight := by
  rcases cli with ⟨⟨asJson, je⟩, ⟨udc, ue⟩, ⟨key, ke⟩, re, dry, fee, up, send, jm⟩
  simp only [broadcast] at h
  simp only [transferFunc, GetLastHeight]
  rcases je with _ | je
  swap
  · simp
  rcases ke with _ | ke
  swap
  · simp
  rcases re with _ | re
  swap
  · simp
  rcases ue with _ | ue
  swap
  · simp
  simp only at h ⊢
  rcases hT : Transfer up send udc arg0 arg1 key fee w.lastHeight w.node with
    ⟨⟨result, _ | e⟩, node⟩
  · rw [hT] at h
    have hd : dry = true := by simpa using h
    subst hd
    simp
  · simp

/-- C12 at a dry run from the cursor `"7"` whose broadcast reports height
`"123"`: nothing is written, the cursor stays `"7"`. -/
theorem cursor_kept_unless_accepted_witness :
    (transferFunc { demoCli "123" with DryRun := true } "2f2f" "10"
      ⟨"7", [], [], ()⟩).2.heightWrites = [] ∧
    (transferFunc { demoCli "123" with DryRun := true } "2f2f" "10"
      ⟨"7", [], [], ()⟩).2.lastHeight = "7" :=
  cursor_kept_unless_accepted { demoCli "123" with DryRun := true } "2f2f" "10"
    ⟨"7", [], [], ()⟩ (Or.inr (Or.inr (Or.inr (Or.inr (Or.inr rfl)))))

/-! ## The text of an integer read back -/

theorem digitChar_spec (d : Nat) (h : d < 10) :
    isDigit (digitChar d) = true ∧ (digitChar d).toNat - '0'.toNat = d ∧
      (digitChar d = '0' → d = 0) := by
  interval_cases d <;> decide

theorem natText_spec (n : Nat) : Canonical (natText n) ∧ decVal (natText n) = n := by
  induction n using Nat.strong_induction_on with
  | _ n ih =>
    by_cases h : n < 10
    · obtain ⟨h1, h2, -⟩ := digitChar_spec n h
      rw [natText_lt n h]
      refine ⟨⟨by simp, ?_, ?_⟩, ?_⟩
      · intro ch hch
        rw [List.mem_singleton] at hch
        rw [hch]
        exact h1
      · intro h0
        simp only [List.head?_cons, Option.some.injEq] at h0
        rw [h0]
      · simp only [decVal, List.foldl_cons, List.foldl_nil]
        omega
    · have h10 : 10 ≤ n := by omega
      have hlt : n / 10 < n := Nat.div_lt_self (by omega) (by omega)
      obtain ⟨hcan, hval⟩ := ih (n / 10) hlt
      obtain ⟨h1, h2, -⟩ := digitChar_spec (n % 10) (Nat.mod_lt _ (by omega))
      rw [natText_step n h10]
      refine ⟨⟨by simp, ?_, ?_⟩, ?_⟩
      · intro ch hch
        rcases List.mem_append.mp hch with hch | hch
        · exact hcan.2.1 ch hch
        · rw [List.mem_singleton] at hch
          rw [hch]
          exact h1
      · intro h0
        exfalso
        obtain ⟨c, cs, hcs⟩ : ∃ c cs, natText (n / 10) = c :: cs := by
          rcases hnt : natText (n / 10) with _ | ⟨c, cs⟩
          · exact absurd hnt hcan.1
          · exact ⟨c, cs, rfl⟩
        rw [hcs] at h0
        simp only [List.cons_append, List.head?_cons, Option.some.injEq] at h0
        have hz := hcan.2.2 (by rw [hcs, h0]; rfl)
        rw [hz] at hval
        have : decVal ['0'] = 0 := by decide
        omega
      · rw [decVal_concat, hval, h2]
        omega

/-- C14: for every integer `n` and every receiver, `Currency.UnmarshalJSON` of
what `Currency.MarshalJSON` gives for `n` returns no error and leaves the
receiver holding `n`; the encoded bytes are a double quote, the base-10 text
of `n` (a minus sign when `n` is negative, then the decimal digits of its
magnitude without a leading zero) and a double quote. -/
theorem currency_value_round_trip (c : Currency) (n : Int) :
    c.UnmarshalJSON (Currency.mk n).MarshalJSON.1 = ⟨none, some ⟨n⟩⟩ ∧
    (Currency.mk n).MarshalJSON.2 = none ∧
    ∃ ds, Canonical ds ∧ decVal ds = n.natAbs ∧
      (Currency.mk n).MarshalJSON.1 = '"' :: ((if n < 0 then '-' :: ds else ds) ++ ['"']) := by
  obtain ⟨hcan, hval⟩ := natText_spec n.natAbs
  refine ⟨?_, rfl, natText n.natAbs, hcan, hval, ?_⟩
  · unfold Currency.UnmarshalJSON
    simp only [Currency.MarshalJSON]
    rw [if_neg (quoted_guard _), quoted_inner]
    by_cases hn : n < 0
    · simp only [intText, if_pos hn]
      rw [jsonUnmarshalBigInt_minus _ _ hcan, hval]
      have hneg : -((n.natAbs : Nat) : Int) = n := by omega
      show (⟨none, some ⟨-((n.natAbs : Nat) : Int)⟩⟩ : Unmarshalled) = _
      rw [hneg]
    · simp only [intText, if_neg hn]
      rw [jsonUnmarshalBigInt_canonical _ _ hcan, hval]
      have hpos : ((n.natAbs : Nat) : Int) = n := by omega
      show (⟨none, some ⟨((n.natAbs : Nat) : Int)⟩⟩ : Unmarshalled) = _
      rw [hpos]
  · by_cases hn : n < 0 <;> simp [Currency.MarshalJSON, intText, hn]

/-! ## `ConvIDFromStr` and the signed 32-bit range -/

theorem parseUintLoop_digits (ds : List Char) (hd : ∀ c ∈ ds, isDigit c = true) (n : Nat)
    (hn : n ≤ maxVal32) :
    parseUintLoop ds n =
      if ds.foldl (fun v c => v * 10 + (c.toNat - '0'.toNat)) n ≤ maxVal32 then
        .ok (ds.foldl (fun v c => v * 10 + (c.toNat - '0'.toNat)) n)
      else .error .ErrRange := by
  induction ds generalizing n with
  | nil => simp [parseUintLoop, hn]
  | cons c cs ih =>
    have hc : '0' ≤ c ∧ c ≤ '9' := by simpa [isDigit] using hd c (by simp)
    have hcut : ¬ n ≥ cutoff64 := by
      have : maxVal32 < cutoff64 := by decide
      omega
    simp only [parseUintLoop, hc, and_self, if_true, if_neg hcut, List.foldl_cons]
    by_cases h1 : n * 10 + (c.toNat - '0'.toNat) > maxVal32
    · rw [if_pos h1]
      have hge := foldl_dec_ge cs (n * 10 + (c.toNat - '0'.toNat))
      rw [if_neg (by omega)]
    · rw [if_neg h1]
      exact ih (fun x hx => hd x (by simp [hx])) _ (by omega)

theorem parseUintLoop_ok (ds : List Char) (n v : Nat) (h : parseUintLoop ds n = .ok v) :
    ∀ c ∈ ds, isDigit c = true := by
  induction ds generalizing n with
  | nil => simp
  | cons c cs ih =>
    simp only [parseUintLoop] at h
    by_cases hc : '0' ≤ c ∧ c ≤ '9'
    · rw [if_pos hc] at h
      by_cases hcut : n ≥ cutoff64
      · rw [if_pos hcut] at h
        exact absurd h (by simp)
      · rw [if_neg hcut] at h
        by_cases h1 : n * 10 + (c.toNat - '0'.toNat) > maxVal32
        · simp only [h1, if_true] at h
          exact absurd h (by simp)
        · simp only [h1, if_false] at h
          intro x hx
          rcases List.mem_cons.mp hx with rfl | hx
          · simpa [isDigit] using hc
          · exact ih _ h x hx
    · rw [if_neg hc] at h
      exact absurd h (by simp)

/-- What `strconv.ParseInt(s, 10, 32)` does on an optionally signed base-10
literal: the value when it lies in the signed 32-bit range, a range error
otherwise. -/
theorem ParseInt_of_literal (s : List Char) (v : Int) (h : literalValue s = some v) :
    ParseInt s = if inInt32 v then .ok v else .error .ErrRange := by
  unfold literalValue at h
  simp only at h
  by_cases hds : (if s.head? = some '+' ∨ s.head? = some '-' then s.tail else s) ≠ [] ∧
      (if s.head? = some '+' ∨ s.head? = some '-' then s.tail else s).all isDigit = true
  swap
  · rw [if_neg hds] at h
    exact absurd h (by simp)
  rw [if_pos hds] at h
  obtain ⟨hne, hdig⟩ := hds
  have hdig' : ∀ c ∈ (if s.head? = some '+' ∨ s.head? = some '-' then s.tail else s),
      isDigit c = true := List.all_eq_true.mp hdig
  have hs : s ≠ [] := by
    intro h0
    rw [h0] at hne
    simp at hne
  have hloop := parseUintLoop_digits _ hdig' 0 (by decide)
  simp only [Option.some.injEq] at h
  unfold ParseInt
  simp only [if_neg hs, ParseUint, if_neg hne]
  rw [hloop]
  have hfold : (if s.head? = some '+' ∨ s.head? = some '-' then s.tail else s).foldl
      (fun v c => v * 10 + (c.toNat - '0'.toNat)) 0 =
      decVal (if s.head? = some '+' ∨ s.head? = some '-' then s.tail else s) := rfl
  rw [hfold]
  generalize decVal (if s.head? = some '+' ∨ s.head? = some '-' then s.tail else s) = un at h ⊢
  have hmax : maxVal32 = 4294967295 := by decide
  by_cases hneg : s.head? = some '-'
  · simp only [hneg, if_true] at h
    subst h
    by_cases hle : un ≤ maxVal32
    · simp only [if_pos hle, hneg, not_true_eq_false, false_and, if_false, true_and,
        decide_True, Bool.true_and]
      by_cases hcut : un > 2 ^ 31
      · have hout : ¬ inInt32 (-(un : Int)) := by
          simp only [inInt32, not_and]
          intro h1
          omega
        rw [if_pos hcut, if_neg hout]
      · have hin : inInt32 (-(un : Int)) := by
          simp only [inInt32]
          omega
        rw [if_neg hcut, if_pos hin, if_pos trivial]
    · have hout : ¬ inInt32 (-(un : Int)) := by
        simp only [inInt32, not_and]
        intro h1
        omega
      rw [if_neg hle, if_neg hout]
  · simp only [hneg, if_false] at h
    subst h
    by_cases hle : un ≤ maxVal32
    · simp only [if_pos hle, hneg, not_false_eq_true, true_and, false_and, if_false]
      by_cases hcut : un ≥ 2 ^ 31
      · have hout : ¬ inInt32 (un : Int) := by
          simp only [inInt32, not_and]
          intro h1
          omega
        rw [if_pos hcut, if_neg hout]
      · have hin : inInt32 (un : Int) := by
          simp only [inInt32]
          omega
        rw [if_neg hcut, if_pos hin]
    · have hout : ¬ inInt32 (un : Int) := by
        simp only [inInt32, not_and]
        intro h1
        omega
      rw [if_neg hle, if_neg hout]

theorem ParseInt_of_not_literal (s : List Char) (h : literalValue s = none) (v : Int) :
    ParseInt s ≠ .ok v := by
  intro hp
  unfold ParseInt at hp
  by_cases hs : s = []
  · rw [if_pos hs] at hp
    exact absurd hp (by simp)
  · rw [if_neg hs] at hp
    simp only at hp
    rcases hu : ParseUint (if s.head? = some '+' ∨ s.head? = some '-' then s.tail else s) with
      e | un
    · rw [hu] at hp
      cases e <;> exact absurd hp (by simp)
    · unfold ParseUint at hu
      by_cases hne : (if s.head? = some '+' ∨ s.head? = some '-' then s.tail else s) = []
      · rw [if_pos hne] at hu
        exact absurd hu (by simp)
      · rw [if_neg hne] at hu
        have hdig := parseUintLoop_ok _ _ _ hu
        unfold literalValue at h
        simp only at h
        rw [if_pos ⟨hne, List.all_eq_true.mpr hdig⟩] at h
        exact absurd h (by simp)

/-- C13: `ConvIDFromStr(s)` returns no error exactly when `s` is an optionally
signed base-10 integer literal whose value lies in `[-2^31, 2^31 - 1]`, and
then returns that value reduced modulo `2^32`; with an error the result is 0;
so a literal with a value from 2147483648 to 4294967295 is rejected with
result 0. -/
theorem convID_signed_range (s : String) :
    ((ConvIDFromStr s).2 = none ↔ ∃ v, literalValue s.toList = some v ∧ inInt32 v) ∧
    (∀ v, literalValue s.toList = some v → inInt32 v →
      ConvIDFromStr s = ((v % (2 ^ 32 : Int)).toNat, none)) ∧
    ((ConvIDFromStr s).2 ≠ none → (ConvIDFromStr s).1 = 0) ∧
    (∀ v, literalValue s.toList = some v → 2147483648 ≤ v → v ≤ 4294967295 →
      (ConvIDFromStr s).1 = 0 ∧ (ConvIDFromStr s).2 ≠ none) := by
  have hlit : ∀ v, literalValue s.toList = some v → inInt32 v →
      ConvIDFromStr s = ((v % (2 ^ 32 : Int)).toNat, none) := by
    intro v hv hin
    unfold ConvIDFromStr
    rw [ParseInt_of_literal _ _ hv, if_pos hin]
  have hout : ∀ v, literalValue s.toList = some v → ¬ inInt32 v →
      ConvIDFromStr s = (0, some (.numError "ParseInt" s .ErrRange)) := by
    intro v hv hin
    unfold ConvIDFromStr
    rw [ParseInt_of_literal _ _ hv, if_neg hin]
  have hnone : literalValue s.toList = none →
      (ConvIDFromStr s).1 = 0 ∧ (ConvIDFromStr s).2 ≠ none := by
    intro hv
    unfold ConvIDFromStr
    rcases hp : ParseInt s.toList with e | tmp
    · simp
    · exact absurd hp (ParseInt_of_not_literal _ hv tmp)
  refine ⟨⟨?_, ?_⟩, hlit, ?_, ?_⟩
  · intro hok
    rcases hv : literalValue s.toList with _ | v
    · exact absurd hok (hnone hv).2
    · by_cases hin : inInt32 v
      · exact ⟨v, rfl, hin⟩
      · rw [hout v hv hin] at hok
        exact absurd hok (by simp)
  · rintro ⟨v, hv, hin⟩
    rw [hlit v hv hin]
  · intro herr
    rcases hv : literalValue s.toList with _ | v
    · exact (hnone hv).1
    · by_cases hin : inInt32 v
      · rw [hlit v hv hin] at herr
        exact absurd rfl herr
      · rw [hout v hv hin]
  · intro v hv h1 h2
    have hin : ¬ inInt32 v := by
      simp only [inInt32, not_and]
      intro _
      omega
    rw [hout v hv hin]
    simp

/-- C13 at `"-1"`, which is accepted and becomes 4294967295, and at
`"4294967295"`, which is rejected with result 0. -/
theorem convID_signed_range_witness :
    literalValue "-1".toList = some (-1) ∧
    ConvIDFromStr "-1" = (4294967295, none) ∧
    literalValue "4294967295".toList = some 4294967295 ∧
    (ConvIDFromStr "4294967295").1 = 0 ∧ (ConvIDFromStr "4294967295").2 ≠ none :=
  ⟨by decide,
    ((convID_signed_range "-1").2.1 (-1) (by decide) (by decide)).trans (by decide),
    by decide,
    (convID_signed_range "4294967295").2.2.2 4294967295 (by decide) (by decide) (by decide)⟩

/-! ## Hex arguments of `grantFunc` -/

theorem fromHexChar_eq_none (c : Char) : fromHexChar c = none ↔ isHexDigit c = false := by
  unfold fromHexChar isHexDigit
  by_cases h1 : '0' ≤ c ∧ c ≤ '9'
  · simp [h1]
  · by_cases h2 : 'a' ≤ c ∧ c ≤ 'f'
    · simp [h1, h2]
    · by_cases h3 : 'A' ≤ c ∧ c ≤ 'F'
      · simp [h1, h2, h3]
      · simp [h1, h2, h3]

theorem decodeLoop_ok_iff (cs : List Char) (acc : List Nat) :
    (decodeLoop cs acc).2 = none ↔ cs.length % 2 = 0 ∧ ∀ c ∈ cs, isHexDigit c = true := by
  induction cs, acc using decodeLoop.induct with
  | case1 acc => simp [decodeLoop]
  | case2 a acc ha =>
    simp [decodeLoop, ha]
  | case3 a acc x hx =>
    simp [decodeLoop, hx]
  | case4 a b rest acc ha =>
    have hna := (fromHexChar_eq_none a).mp ha
    simp [decodeLoop, ha, hna]
  | case5 a b rest acc x hx hb =>
    have hnb := (fromHexChar_eq_none b).mp hb
    simp [decodeLoop, hx, hb, hnb]
  | case6 a b rest acc x hx y hy ih =>
    have ha : isHexDigit a = true := by
      by_contra hc
      have := (fromHexChar_eq_none a).mpr (by simpa using hc)
      rw [this] at hx
      exact absurd hx (by simp)
    have hb : isHexDigit b = true := by
      by_contra hc
      have := (fromHexChar_eq_none b).mpr (by simpa using hc)
      rw [this] at hy
      exact absurd hy (by simp)
    simp only [decodeLoop, hx, hy, ih, List.length_cons, List.mem_cons, forall_eq_or_imp, ha,
      hb, true_and]
    constructor
    · rintro ⟨h1, h2⟩
      exact ⟨by omega, h2⟩
    · rintro ⟨h1, h2⟩
      exact ⟨by omega, h2⟩

theorem decodeString_ok_iff (a : String) : (DecodeString a).2 = none ↔ validHex a = true := by
  unfold DecodeString validHex
  rw [decodeLoop_ok_iff]
  have hlen : a.length = a.toList.length := by
    cases a
    rfl
  rw [hlen, Bool.and_eq_true, List.all_eq_true, beq_iff_eq]

theorem decodeString_err (a : String) (h : validHex a = false) :
    ∃ e, (DecodeString a).2 = some e := by
  rcases hd : (DecodeString a).2 with _ | e
  · have := (decodeString_ok_iff a).mp hd
    rw [this] at h
    exact absurd h (by simp)
  · exact ⟨e, rfl⟩

/-- C15: when one of the first three arguments of `grantFunc` is no valid
hexadecimal string (odd length, or a character that is no hex digit),
`grantFunc` returns the decode error of the first such argument and leaves
the state as it was, whatever `GetRawKey` and `rpc.Grant` are: the key is not
loaded and `rpc.Grant` is not called. -/
theorem grant_bad_hex_stops {Key Res σ : Type} (env : GrantEnv Key Res σ)
    (arg0 arg1 arg2 : String) (s : σ)
    (hbad : validHex arg0 = false ∨ validHex arg1 = false ∨ validHex arg2 = false) :
    ∃ e, (DecodeString (firstBad arg0 arg1 arg2)).2 = some e ∧
      grantFunc env arg0 arg1 arg2 s = (some e, s) := by
  by_cases h0 : validHex arg0 = false
  · obtain ⟨e, he⟩ := decodeString_err arg0 h0
    refine ⟨e, by simpa [firstBad, h0] using he, ?_⟩
    rcases hd : DecodeString arg0 with ⟨bs, err⟩
    rw [hd] at he
    simp only at he
    subst he
    simp [grantFunc, hd]
  · have h0' : validHex arg0 = true := by simpa using h0
    have hd0 : (DecodeString arg0).2 = none := (decodeString_ok_iff arg0).mpr h0'
    rcases hp0 : DecodeString arg0 with ⟨bs0, err0⟩
    rw [hp0] at hd0
    simp only at hd0
    subst hd0
    by_cases h1 : validHex arg1 = false
    · obtain ⟨e, he⟩ := decodeString_err arg1 h1
      refine ⟨e, by simpa [firstBad, h0', h1] using he, ?_⟩
      rcases hd : DecodeString arg1 with ⟨bs, err⟩
      rw [hd] at he
      simp only at he
      subst he
      simp [grantFunc, hp0, hd]
    · have h1' : validHex arg1 = true := by simpa using h1
      have hd1 : (DecodeString arg1).2 = none := (decodeString_ok_iff arg1).mpr h1'
      rcases hp1 : DecodeString arg1 with ⟨bs1, err1⟩
      rw [hp1] at hd1
      simp only at hd1
      subst hd1
      have h2 : validHex arg2 = false := by
        rcases hbad with h | h | h
        · exact absurd h h0
        · exact absurd h h1
        · exact h
      obtain ⟨e, he⟩ := decodeString_err arg2 h2
      refine ⟨e, by simpa [firstBad, h0', h1'] using he, ?_⟩
      rcases hd : DecodeString arg2 with ⟨bs, err⟩
      rw [hd] at he
      simp only at he
      subst he
      simp [grantFunc, hp0, hp1, hd]

/-- C15 at a grantee `"zz"` between two valid arguments: the error is the
invalid byte `z`, and the state that records the calls of `GetRawKey` and
`rpc.Grant` stays empty. -/
theorem grant_bad_hex_stops_witness :
    validHex "zz" = false ∧
    ∃ e, (DecodeString (firstBad "2f" "zz" "2f")).2 = some e ∧
      grantFunc tracingEnv "2f" "zz" "2f" [] = (some e, []) :=
  ⟨by decide, grant_bad_hex_stops tracingEnv "2f" "zz" "2f" [] (Or.inr (Or.inl (by decide)))⟩


end AmoClient
